import Mathlib

/-!
# Tetris (caliinn/Tetris, `src/main.c`): grid / piece simulation

A shallow embedding of the game core of `main.c` and proofs about it.

Conventions of the embedding

* C `int` values are mathematical integers (`Int`).  Signed overflow is undefined in C and
  cannot arise from coordinates inside the 768 x 768 window or from scores near the cap.
* C integer division truncates toward zero: `Int.tdiv`; `%` is `Int.tmod`; `abs` is
  `Int.natAbs`.
* The global variables `tetromino`, `grid`, `canMove`, `temp`, `speed`, `score`, `level`
  are the fields of `State`.  The SDL handles (window, renderer, font, textures) and the
  functions that only touch them (`draw`, `create_text`, `update_score`, `level_up`)
  are rendering glue and are not part of the state.
* A computation that leaves the normal control flow ends in a `Halt`: `exit0` when the
  program calls `exit(0)`, `outOfBounds` when an array is indexed outside its bounds
  (undefined behaviour in C), `outOfFuel` when a loop was cut off by the fuel bound of
  the embedding.
-/

namespace Tetris

/-! ## Constants (`#define`s, lines 22-29) -/

/-- Left margin of the grid (`#define BORDER 256`). -/
def BORDER : Int := 256
/-- Grid y axis, the number of rows (`#define M 24`). -/
abbrev M : Nat := 24
/-- Grid x axis, the number of columns (`#define N 16`). -/
abbrev N : Nat := 16
/-- Max level (`#define MAX_LEVEL 5`). -/
def MAX_LEVEL : Int := 5
/-- Max score (`#define MAX_SCORE 1000000`). -/
def MAX_SCORE : Int := 1000000
/-- Tetromino size (`#define SIZE 4`). -/
abbrev SIZE : Nat := 4
/-- Window width (`#define WIN_W 768`). -/
def WIN_W : Int := 768
/-- Window height (`#define WIN_H 768`). -/
def WIN_H : Int := 768

/-! ## Data model (lines 60-88) -/

/-- The SDL rectangle: position and size in pixels. -/
structure SDL_Rect where
  x : Int
  y : Int
  w : Int
  h : Int
deriving DecidableEq

/-- The `unit` struct: basic rectangle unit (colour, occupancy flag, rectangle). -/
structure unit where
  red : Int
  green : Int
  blue : Int
  hasRect : Bool
  rect : SDL_Rect
deriving DecidableEq

/-- The array `unit grid[M][N]`. -/
abbrev Grid := Fin M → Fin N → unit

/-- The array `unit tetromino[SIZE]`. -/
abbrev Tetromino := Fin SIZE → unit

/-- The global variables of the game core. -/
structure State where
  tetromino : Tetromino
  grid : Grid
  canMove : Bool
  temp : Fin SIZE → SDL_Rect
  speed : Int
  score : Int
  level : Int

/-- Ways a computation leaves the normal control flow. -/
inductive Halt where
  | exit0
  | outOfBounds
  | outOfFuel
deriving DecidableEq

/-- An array index: a C `int` used to index an array of length `n`. -/
def index (n : Nat) (i : Int) : Except Halt (Fin n) :=
  if h : 0 ≤ i ∧ i < (n : Int) then .ok ⟨i.toNat, by omega⟩ else .error .outOfBounds

/-- The indices `0, 1, ..., n-1` of a `for (int i = 0; i < n; i++)` loop. -/
def indices : (n : Nat) → List (Fin n)
  | 0 => []
  | n + 1 => 0 :: (indices n).map Fin.succ

/-- Assignment `grid[r][c] = u`. -/
def Grid.set (g : Grid) (r : Fin M) (c : Fin N) (u : unit) : Grid :=
  fun r2 c2 => if r2 = r ∧ c2 = c then u else g r2 c2

/-! ## `hit` (lines 453-473) -/

/-- One iteration of the loop of `hit`: `true` when the iteration executes `return true`. -/
def hitCell (g : Grid) (u : unit) : Except Halt Bool :=
  if u.rect.x < BORDER ∨ u.rect.x ≥ WIN_W ∨ u.rect.y ≥ WIN_H then .ok true
  else
    let iX : Int := (u.rect.x - BORDER).tdiv 32
    let iY : Int := ((u.rect.y.tdiv 32) - ((M : Int) - 1)).natAbs
    match index M iY, index N iX with
    | .ok r, .ok c => .ok (g r c).hasRect
    | _, _ => .error .outOfBounds

/-- The loop of `hit` over the remaining indices. -/
def hitFrom (g : Grid) (t : Tetromino) : List (Fin SIZE) → Except Halt Bool
  | [] => .ok false
  | i :: rest =>
    match hitCell g (t i) with
    | .ok true => .ok true
    | .ok false => hitFrom g t rest
    | .error e => .error e

/-- The function `hit`: did the tetromino hit the boundaries or a locked rectangle. -/
def hit (g : Grid) (t : Tetromino) : Except Halt Bool :=
  hitFrom g t (indices SIZE)

/-! ## `lock` (lines 543-570) -/

/-- One iteration of the loop of `lock` for index `i`: the game-over test on `temp[i].y`,
then the index computation and the writes into `grid[iY][iX]`. -/
def lockCell (s : State) (i : Fin SIZE) : Except Halt State :=
  if (s.temp i).y = 0 then .error .exit0
  else
    let iX : Int := ((s.temp i).x - BORDER).tdiv 32
    let iY : Int := (((s.temp i).y.tdiv 32) - ((M : Int) - 1)).natAbs
    match index M iY, index N iX with
    | .ok r, .ok c =>
      let u : unit :=
        { red := (s.tetromino i).red
          green := (s.tetromino i).green
          blue := (s.tetromino i).blue
          rect := { x := (s.temp i).x, y := (s.temp i).y, w := (s.temp i).w, h := (s.temp i).h }
          hasRect := true }
      .ok { s with grid := s.grid.set r c u }
    | _, _ => .error .outOfBounds

/-- The loop of `lock` over the remaining indices. -/
def lockFrom : List (Fin SIZE) → State → Except Halt State
  | [], s => .ok s
  | i :: rest, s =>
    match lockCell s i with
    | .ok s1 => lockFrom rest s1
    | .error e => .error e

/-- The function `lock`: add every rectangle of the tetromino to the grid, or end the game. -/
def lock (s : State) : Except Halt State :=
  lockFrom (indices SIZE) s

/-! ## `gravity` (lines 431-443) -/

/-- The inner loop of `gravity` for one row `i` (with `im1` the index `i-1`):
`grid[i-1][j] = grid[i][j]; grid[i-1][j].rect.y += 32;` for every column `j`. -/
def gravityRow (g : Grid) (i im1 : Fin M) : Grid :=
  (indices N).foldl
    (fun g j =>
      let g1 := g.set im1 j (g i j)
      g1.set im1 j { g1 im1 j with rect := { (g1 im1 j).rect with y := (g1 im1 j).rect.y + 32 } })
    g

/-- The outer loop `for (; i < M; i++)` of `gravity`; the first argument is the number of
iterations left, `M - i`. -/
def gravityLoop : Nat → Int → Grid → Except Halt Grid
  | 0, _, g => .ok g
  | n + 1, i, g =>
    match index M (i - 1), index M i with
    | .ok im1, .ok r => gravityLoop n (i + 1) (gravityRow g r im1)
    | _, _ => .error .outOfBounds

/-- The function `gravity(i)`: bring every line from `i` upward down one row. -/
def gravity (i : Int) (g : Grid) : Except Halt Grid :=
  gravityLoop ((M : Int) - i).toNat i g

/-! ## `check_lines` (lines 140-177) -/

/-- The counting loop of `check_lines` for row `i`: the number of columns with `hasRect`. -/
def countRow (g : Grid) (i : Fin M) : Nat :=
  (indices N).foldl (fun count j => if (g i j).hasRect then count + 1 else count) 0

/-- Lines 162-172 of `check_lines`: `score += 100`, and on every 1000th mark below
`MAX_LEVEL` the level goes up and the falling interval goes down by 184. -/
def awardLine (s : State) : State :=
  let s1 := { s with score := s.score + 100 }
  if s1.score.tmod 1000 = 0 ∧ s1.level < MAX_LEVEL then
    { s1 with speed := s1.speed - 184, level := s1.level + 1 }
  else s1

/-- The loop `for (int i = 0; i < M; i++)` of `check_lines`, started at row `i`.  On a full
row the body runs `gravity(i+1)` and `i -= 1`, so the next iteration looks at row `i`
again.  The loop need not terminate, whence the fuel. -/
def check_lines_loop : Nat → Nat → State → Except Halt State
  | 0, _, _ => .error .outOfFuel
  | fuel + 1, i, s =>
    if h : i < M then
      if countRow s.grid ⟨i, h⟩ = N then
        match gravity ((i : Int) + 1) s.grid with
        | .ok g => check_lines_loop fuel i (awardLine { s with grid := g })
        | .error e => .error e
      else check_lines_loop fuel (i + 1) s
    else .ok s

/-- The function `check_lines`. -/
def check_lines (fuel : Nat) (s : State) : Except Halt State :=
  check_lines_loop fuel 0 s

/-! ## Moves (lines 577-666) -/

/-- The loop `for i: tetromino[i].rect = temp[i];` that rejects a transform. -/
def restore (s : State) : State :=
  (indices SIZE).foldl
    (fun (s : State) i =>
      { s with tetromino := Function.update s.tetromino i { s.tetromino i with rect := s.temp i } })
    s

/-- The first loop of `move_down`: `temp[i] = tetromino[i].rect; tetromino[i].rect.y += 32;`. -/
def shiftDown (s : State) : State :=
  (indices SIZE).foldl
    (fun (s : State) i =>
      let s1 := { s with temp := Function.update s.temp i (s.tetromino i).rect }
      let u : unit :=
        { s1.tetromino i with rect := { (s1.tetromino i).rect with y := (s1.tetromino i).rect.y + 32 } }
      { s1 with tetromino := Function.update s1.tetromino i u })
    s

/-- The function `move_down`; `fuel` bounds the loop of `check_lines`. -/
def move_down (fuel : Nat) (s : State) : Except Halt State :=
  let s1 := shiftDown s
  match hit s1.grid s1.tetromino with
  | .ok true =>
    match lock s1 with
    | .ok s2 =>
      match check_lines fuel s2 with
      | .ok s3 => .ok { s3 with canMove := false }
      | .error e => .error e
    | .error e => .error e
  | .ok false => .ok s1
  | .error e => .error e

/-- The first loop of `move_left`: `temp[i] = tetromino[i].rect; tetromino[i].rect.x -= 32;`. -/
def shiftLeft (s : State) : State :=
  (indices SIZE).foldl
    (fun (s : State) i =>
      let s1 := { s with temp := Function.update s.temp i (s.tetromino i).rect }
      let u : unit :=
        { s1.tetromino i with rect := { (s1.tetromino i).rect with x := (s1.tetromino i).rect.x - 32 } }
      { s1 with tetromino := Function.update s1.tetromino i u })
    s

/-- The function `move_left`. -/
def move_left (s : State) : Except Halt State :=
  let s1 := shiftLeft s
  match hit s1.grid s1.tetromino with
  | .ok true => .ok (restore s1)
  | .ok false => .ok s1
  | .error e => .error e

/-- The first loop of `move_right`: `temp[i] = tetromino[i].rect; tetromino[i].rect.x += 32;`. -/
def shiftRight (s : State) : State :=
  (indices SIZE).foldl
    (fun (s : State) i =>
      let s1 := { s with temp := Function.update s.temp i (s.tetromino i).rect }
      let u : unit :=
        { s1.tetromino i with rect := { (s1.tetromino i).rect with x := (s1.tetromino i).rect.x + 32 } }
      { s1 with tetromino := Function.update s1.tetromino i u })
    s

/-- The function `move_right`. -/
def move_right (s : State) : Except Halt State :=
  let s1 := shiftRight s
  match hit s1.grid s1.tetromino with
  | .ok true => .ok (restore s1)
  | .ok false => .ok s1
  | .error e => .error e

/-- The loop of `rotate` about the pivot point `p` (a copy of `tetromino[1].rect` taken
before the loop): `x = rect.y - p.y; y = rect.x - p.x; rect.x = p.x - x; rect.y = p.y + y;`. -/
def turn (p : SDL_Rect) (s : State) : State :=
  (indices SIZE).foldl
    (fun (s : State) i =>
      let x := (s.tetromino i).rect.y - p.y
      let y := (s.tetromino i).rect.x - p.x
      let u : unit := { s.tetromino i with rect := { (s.tetromino i).rect with x := p.x - x } }
      let s1 := { s with tetromino := Function.update s.tetromino i u }
      let v : unit := { s1.tetromino i with rect := { (s1.tetromino i).rect with y := p.y + y } }
      { s1 with tetromino := Function.update s1.tetromino i v })
    s

/-- The function `rotate`.  It takes no snapshot of its own: on a collision it copies
back whatever `temp` holds. -/
def rotate (s : State) : Except Halt State :=
  let p := (s.tetromino 1).rect
  let s1 := turn p s
  match hit s1.grid s1.tetromino with
  | .ok true => .ok (restore s1)
  | .ok false => .ok s1
  | .error e => .error e

/-! ## `select_tetromino` (lines 684-841) and the start of `main` -/

/-- The loop shared by the seven cases of `select_tetromino`: colour every unit and lay the
four rectangles in a row from `x`, stepping `x += 32`. -/
def layRow (red green blue : Int) (x y : Int) (t : Tetromino) : Tetromino :=
  ((indices SIZE).foldl
    (fun (acc : Tetromino × Int) i =>
      (Function.update acc.1 i
        { acc.1 i with
          red := red, green := green, blue := blue
          rect := { x := acc.2, y := y, w := 32, h := 32 } },
       acc.2 + 32))
    (t, x)).1

/-- Assignment `tetromino[i].rect.x = vx; tetromino[i].rect.y = vy;`. -/
def place (t : Tetromino) (i : Fin SIZE) (vx vy : Int) : Tetromino :=
  Function.update t i { t i with rect := { (t i).rect with x := vx, y := vy } }

/-- The function `select_tetromino`, with the random `choice` (already reduced modulo 7)
as a parameter. -/
def select_tetromino (choice : Nat) (s : State) : State :=
  let x : Int := (6 * 32) + BORDER
  let y : Int := 0
  match choice with
  | 0 => { s with tetromino := layRow 0 255 255 x y s.tetromino }
  | 1 =>
    let t := layRow 0 0 255 x y s.tetromino
    { s with tetromino := place t 3 (t 2).rect.x (y + 32) }
  | 2 =>
    let t := layRow 255 140 0 x y s.tetromino
    { s with tetromino := place t 3 (t 0).rect.x (y + 32) }
  | 3 =>
    let t := layRow 255 255 0 x y s.tetromino
    let t := place t 2 (t 0).rect.x (y + 32)
    { s with tetromino := place t 3 (t 1).rect.x (y + 32) }
  | 4 =>
    let t := layRow 0 255 0 x y s.tetromino
    let t := place t 2 ((t 0).rect.x - 32) (y + 32)
    { s with tetromino := place t 3 (t 0).rect.x (y + 32) }
  | 5 =>
    let t := layRow 128 0 128 x y s.tetromino
    { s with tetromino := place t 3 (t 1).rect.x (y + 32) }
  | 6 =>
    let t := layRow 255 0 0 x y s.tetromino
    let t := place t 2 (t 1).rect.x (y + 32)
    { s with tetromino := place t 3 ((t 1).rect.x + 32) (y + 32) }
  | _ => s

/-- The zero-initialised globals together with the explicit initialisers (`canMove = true`,
`speed = 1000`, `score = 0`, `level = 1`) and the grid as `main` initialises it. -/
def initial : State :=
  { tetromino := fun _ => { red := 0, green := 0, blue := 0, hasRect := false, rect := ⟨0, 0, 0, 0⟩ }
    grid := fun _ _ => { red := 0, green := 0, blue := 0, hasRect := false, rect := ⟨0, 0, 0, 0⟩ }
    canMove := true
    temp := fun _ => ⟨0, 0, 0, 0⟩
    speed := 1000
    score := 0
    level := 1 }

/-! ## Specification vocabulary -/

/-- A rectangle lies outside the playfield: left of the left edge, at or past the right
edge, or at or past the bottom edge. -/
def outside (r : SDL_Rect) : Prop := r.x < 256 ∨ r.x ≥ 768 ∨ r.y ≥ 768

instance (r : SDL_Rect) : Decidable (outside r) := by unfold outside; infer_instance

/-- Occupancy flag of `grid[row][col]` for integer indices (`false` outside the array). -/
def occupied (g : Grid) (row col : Int) : Bool :=
  match index M row, index N col with
  | .ok r, .ok c => (g r c).hasRect
  | _, _ => false

/-- A rectangle moved by `(dx, dy)` pixels. -/
def SDL_Rect.moved (r : SDL_Rect) (dx dy : Int) : SDL_Rect :=
  { r with x := r.x + dx, y := r.y + dy }

/-- A tetromino with all 4 rectangles moved by `(dx, dy)`; colours untouched. -/
def translate (dx dy : Int) (t : Tetromino) : Tetromino :=
  fun i => { t i with rect := (t i).rect.moved dx dy }

/-- The grid, the score, the level and the speed are the same in both states. -/
def sameGame (s s1 : State) : Prop :=
  s1.grid = s.grid ∧ s1.score = s.score ∧ s1.level = s.level ∧ s1.speed = s.speed

/-- A unit whose rectangle was moved down by one cell (`rect.y += 32`). -/
def lowered (u : unit) : unit :=
  { u with rect := { u.rect with y := u.rect.y + 32 } }

/-- Row `r` of the grid is full: every one of its 16 columns is occupied. -/
def rowFull (g : Grid) (r : Fin M) : Prop := ∀ c, (g r c).hasRect = true

instance (g : Grid) (r : Fin M) : Decidable (rowFull g r) := by unfold rowFull; infer_instance

/-- Row number `r` exists and is full. -/
def fullAt (g : Grid) (r : Nat) : Bool :=
  if h : r < M then decide (rowFull g ⟨r, h⟩) else false

/-- The number of full rows of the grid. -/
def fullRows (g : Grid) : Nat := (List.range M).countP (fullAt g)

/-- The top row of the grid (index 23, pixel `y = 0`). -/
def topRow : Fin M := ⟨23, by decide⟩

/-- The number of full rows among the rows `i, i+1, ..., 23`. -/
def fullRowsFrom (g : Grid) (i : Nat) : Nat := (List.range' i (M - i)).countP (fullAt g)

/-- No row of the grid is full. -/
def noFullRow (g : Grid) : Prop := ∀ r, ¬ rowFull g r

/-- A rectangle lies inside the playfield. -/
def inField (r : SDL_Rect) : Prop := 256 ≤ r.x ∧ r.x < 768 ∧ 0 ≤ r.y ∧ r.y < 768

instance (r : SDL_Rect) : Decidable (inField r) := by unfold inField; infer_instance

/-- The rectangle `rc` maps to the grid cell `grid[23 - y/32][(x - 256)/32]` = `grid[r][c]`. -/
def landsOn (rc : SDL_Rect) (r : Fin M) (c : Fin N) : Prop :=
  (r.val : Int) = 23 - rc.y / 32 ∧ (c.val : Int) = (rc.x - 256) / 32

instance (rc : SDL_Rect) (r : Fin M) (c : Fin N) : Decidable (landsOn rc r c) := by
  unfold landsOn; infer_instance

/-- The unit that `lock` writes for a piece cell `u` whose pre-collision rectangle is `rc`:
occupied, with the colour of the piece and that pixel rectangle. -/
def lockedUnit (u : unit) (rc : SDL_Rect) : unit :=
  { red := u.red, green := u.green, blue := u.blue, hasRect := true, rect := rc }

/-- The candidate position that `rotate` computes before it calls `hit`: the loop of
`rotate` run about the pivot `tetromino[1].rect`. -/
def turned (s : State) : State := turn (s.tetromino 1).rect s

/-- The state after `n` line-clear awards (lines 162-172 of `check_lines` run `n` times). -/
def awards : Nat → State → State
  | 0, s => s
  | n + 1, s => awards n (awardLine s)

/-- The colour column of the shape table of the specification (I, J, L, O, S, T, Z). -/
def shapeColour : Nat → Int × Int × Int
  | 0 => (0, 255, 255)
  | 1 => (0, 0, 255)
  | 2 => (255, 140, 0)
  | 3 => (255, 255, 0)
  | 4 => (0, 255, 0)
  | 5 => (128, 0, 128)
  | _ => (255, 0, 0)

/-- The offset patterns of the shape table of the specification, as (column, row) offsets
of the 4 cells from the base cell: I is 4 in a row; J is 3 in a row and 1 below the
rightmost; L is 3 in a row and 1 below the leftmost; O is a 2x2 block; S is 2 in a row and
2 below, offset left; T is 3 in a row and 1 below the middle; Z is 2 in a row and 2 below,
offset right. -/
def shapeOffsets : Nat → List (Int × Int)
  | 0 => [(0, 0), (1, 0), (2, 0), (3, 0)]
  | 1 => [(0, 0), (1, 0), (2, 0), (2, 1)]
  | 2 => [(0, 0), (1, 0), (2, 0), (0, 1)]
  | 3 => [(0, 0), (1, 0), (0, 1), (1, 1)]
  | 4 => [(0, 0), (1, 0), (-1, 1), (0, 1)]
  | 5 => [(0, 0), (1, 0), (2, 0), (1, 1)]
  | _ => [(0, 0), (1, 0), (1, 1), (2, 1)]

/-- The rectangle of the cell at the (column, row) offset `o` from the base cell in
column 6, row 0 of the playfield. -/
def cellRect (o : Int × Int) : SDL_Rect :=
  ⟨256 + 32 * (6 + o.1), 32 * o.2, 32, 32⟩

/-- The grid has no occupied cell. -/
def emptyGrid (g : Grid) : Prop := ∀ r c, (g r c).hasRect = false

/-- The set of grid cells (row, column) covered by the piece: cell `i` covers
`grid[23 - y/32][(x - 256)/32]`. -/
def coveredCells (t : Tetromino) : Finset (Int × Int) :=
  Finset.univ.image (fun i => (23 - (t i).rect.y / 32, ((t i).rect.x - 256) / 32))

/-- The coordinates of the rectangle are aligned to the 32-unit cell size. -/
def aligned (r : SDL_Rect) : Prop := r.x % 32 = 0 ∧ r.y % 32 = 0

instance (r : SDL_Rect) : Decidable (aligned r) := by unfold aligned; infer_instance

/-- The states reached from an empty grid by calls of `lock` that return (for any active
piece whose pre-collision cells `temp[i]` lie inside the playfield, aligned to the cell
size) and by passes of `check_lines`. -/
inductive Stacked : State → Prop
  | start (s : State) (h : emptyGrid s.grid) : Stacked s
  | locked (s s1 : State) (t : Tetromino) (tmp : Fin SIZE → SDL_Rect) (hs : Stacked s)
      (hin : ∀ i, inField (tmp i) ∧ aligned (tmp i))
      (h : lock { s with tetromino := t, temp := tmp } = .ok s1) : Stacked s1
  | checked (s s1 : State) (fuel : Nat) (hs : Stacked s)
      (h : check_lines fuel s = .ok s1) : Stacked s1

/-- One row of the grid: its 16 cells. -/
abbrev Row := Fin N → unit

/-- The rows of the grid, read from index 0 (the bottom row) upward. -/
def rows (g : Grid) : List Row := (indices M).map g

/-- The row has all of its 16 columns occupied. -/
def fullRow (row : Row) : Prop := ∀ c, (row c).hasRect = true

instance (row : Row) : Decidable (fullRow row) := by unfold fullRow; infer_instance

/-- A unit that dropped `k` rows: occupancy, colour, `x` and size kept, pixel `y` grown by
32 per row. -/
def loweredBy (k : Nat) (u : unit) : unit :=
  { u with rect := { u.rect with y := u.rect.y + 32 * (k : Int) } }

/-- A row that dropped `k` rows. -/
def rowLoweredBy (k : Nat) (row : Row) : Row := fun c => loweredBy k (row c)

/-- The rows that are not full, in their order, each dropped by the number of full rows
met before it (`k` counts the full rows met so far). -/
def compacted : List Row → Nat → List Row
  | [], _ => []
  | row :: rest, k =>
    if fullRow row then compacted rest (k + 1) else rowLoweredBy k row :: compacted rest k

/-- The `k` copies of the top row that a pass leaves above the compacted rows: the copy
made at the `j`-th clear from the end has dropped `j` rows, the last one none. -/
def topCopies (top : Row) : Nat → List Row
  | 0 => []
  | k + 1 => rowLoweredBy k top :: topCopies top k

/-- The number of full rows in a list of rows. -/
def fullCount (l : List Row) : Nat := l.countP (fun row => decide (fullRow row))

/-- Row number `r` of the grid (the top row when `r` is not a row number). -/
def rowN (g : Grid) (r : Nat) : Row := if h : r < M then g ⟨r, h⟩ else g topRow

/-- The rows `i, i+1, ..., i+n-1` of the grid. -/
def rowsSeg (g : Grid) : Nat → Nat → List Row
  | _, 0 => []
  | i, n + 1 => rowN g i :: rowsSeg g (i + 1) n

/-! ## Concrete states and plays -/

/-- Run a sequence of operations, stopping at the first `Halt`. -/
def play (ops : List (State → Except Halt State)) (s : State) : Except Halt State :=
  ops.foldl (fun r f => match r with | .ok s1 => f s1 | .error e => .error e) (.ok s)

/-- The start of a drop cycle in `game_loop`: `canMove = true; select_tetromino();`, with
the random choice as a parameter. -/
def spawn (choice : Nat) (s : State) : Except Halt State :=
  .ok (select_tetromino choice { s with canMove := true })

/-- The rectangles of the active tetromino, in index order. -/
def rects (s : State) : List SDL_Rect :=
  (indices SIZE).map (fun i => (s.tetromino i).rect)

/-- The I piece after `select_tetromino`, one `move_down`, one `rotate` (now upright) and
seven `move_left`: it stands against the left wall. -/
def playToLeftWall : Except Halt State :=
  play [move_down 50, rotate, move_left, move_left, move_left, move_left, move_left,
    move_left, move_left] (select_tetromino 0 initial)

/-- A play of two I pieces.  The first falls flat onto the floor (columns 6 to 9).  The
second is turned upright, moved over column 6 and dropped onto the first, where a
`move_down` from the keyboard locks it; a `move_left` that is still pending in the same
event poll then moves the tetromino (which `game_loop` has not replaced yet) beside the
stack. -/
def besideStack : Except Halt State :=
  play ([spawn 0] ++ List.replicate 24 (move_down 50) ++
        [spawn 0, move_down 50, rotate, move_left] ++ List.replicate 20 (move_down 50) ++
        [move_left]) initial

/-- An upright I piece against the left wall of the empty grid. -/
def uprightAtLeftWall : State :=
  { initial with
    tetromino := fun i =>
      { red := 0, green := 255, blue := 255, hasRect := false
        rect := ⟨256, 32 + 32 * (i.val : Int), 32, 32⟩ } }

/-- An upright I piece against the right wall of the empty grid. -/
def uprightAtRightWall : State :=
  { initial with
    tetromino := fun i =>
      { red := 0, green := 255, blue := 255, hasRect := false
        rect := ⟨736, 32 + 32 * (i.val : Int), 32, 32⟩ } }

/-- An I piece lying flat in the middle of the empty grid (`y = 320`). -/
def midField : State :=
  { initial with
    tetromino := fun i =>
      { red := 0, green := 255, blue := 255, hasRect := false
        rect := ⟨448 + 32 * (i.val : Int), 320, 32, 32⟩ } }

/-- The O piece as spawned, moved down 10 rows on the empty grid. -/
def midFieldO : State :=
  { initial with tetromino := translate 0 320 (select_tetromino 3 initial).tetromino }

/-- An I piece lying on the floor of the empty grid (row `y = 736`) with `temp` holding
those same positions, as after the `move_down` that found the floor. -/
def lyingOnFloor : State :=
  { initial with
    tetromino := fun i =>
      { red := 0, green := 255, blue := 255, hasRect := false
        rect := ⟨448 + 32 * (i.val : Int), 768, 32, 32⟩ }
    temp := fun i => ⟨448 + 32 * (i.val : Int), 736, 32, 32⟩ }

/-- The grid state after `lock` on `lyingOnFloor`. -/
def lockedOnFloor : State :=
  match lock lyingOnFloor with
  | .ok s => s
  | .error _ => lyingOnFloor

/-- The empty grid with the whole top row (index 23) occupied; score 0, level 1. -/
def topRowFull : State :=
  { initial with
    grid := fun r _ =>
      { red := 0, green := 0, blue := 0, hasRect := decide (r = topRow), rect := ⟨0, 0, 0, 0⟩ } }

/-- Rows 0 and 1 full, the rest of the grid empty, and a score of 999900. -/
def twoRowsNearCap : State :=
  { initial with
    score := 999900
    grid := fun r _ =>
      { red := 0, green := 0, blue := 0, hasRect := decide (r.val < 2), rect := ⟨0, 0, 0, 0⟩ } }

/-! # Theorems -/

/-! ## Loops over indices -/

theorem indices_size : indices SIZE = [0, 1, 2, 3] := rfl

theorem mem_indices : ∀ (n : Nat) (i : Fin n), i ∈ indices n
  | 0, i => i.elim0
  | n + 1, i => by
    refine Fin.cases ?_ (fun j => ?_) i
    · simp [indices]
    · simp only [indices, List.mem_cons, List.mem_map]
      exact Or.inr ⟨j, mem_indices n j, rfl⟩

theorem index_ok (n : Nat) (i : Int) (h : 0 ≤ i ∧ i < (n : Int)) :
    index n i = .ok ⟨i.toNat, by omega⟩ := by
  unfold index
  rw [dif_pos h]

theorem index_error (n : Nat) (i : Int) (h : ¬ (0 ≤ i ∧ i < (n : Int))) :
    index n i = .error .outOfBounds := by
  unfold index
  rw [dif_neg h]

/-! ## `hit` -/

theorem hitCell_of_nonneg (g : Grid) (u : unit) (hy : 0 ≤ u.rect.y) :
    hitCell g u = .ok (decide (outside u.rect) ||
      occupied g (23 - u.rect.y / 32) ((u.rect.x - 256) / 32)) := by
  unfold hitCell
  by_cases ho : outside u.rect
  · have ho2 := ho
    simp only [outside, BORDER, WIN_W, WIN_H] at ho2 ⊢
    simp [ho, ho2]
  · have ho2 := ho
    simp only [outside, not_or, not_lt, ge_iff_le, not_le] at ho2
    obtain ⟨h1, h2, h3⟩ := ho2
    have hx : (u.rect.x - BORDER).tdiv 32 = (u.rect.x - 256) / 32 := by
      simp only [BORDER]
      exact Int.tdiv_eq_ediv (by omega) (by norm_num)
    have hyy : (((u.rect.y.tdiv 32) - ((M : Int) - 1)).natAbs : Int) = 23 - u.rect.y / 32 := by
      rw [Int.tdiv_eq_ediv hy (by norm_num)]
      simp only [M]
      omega
    have hr := index_ok M (23 - u.rect.y / 32) (by simp only [M]; omega)
    have hc := index_ok N ((u.rect.x - 256) / 32) (by simp only [N]; omega)
    have hb : ¬ (u.rect.x < BORDER ∨ u.rect.x ≥ WIN_W ∨ u.rect.y ≥ WIN_H) := by
      simp only [BORDER, WIN_W, WIN_H]; omega
    rw [if_neg hb]
    simp only [hx, hyy, occupied, hr, hc, ho, decide_False, Bool.false_or]

theorem hitFrom_eq_any (g : Grid) (t : Tetromino) (f : Fin SIZE → Bool)
    (hf : ∀ i, hitCell g (t i) = .ok (f i)) :
    ∀ l : List (Fin SIZE), hitFrom g t l = .ok (l.any f)
  | [] => rfl
  | i :: rest => by
    simp only [hitFrom, hf i, List.any_cons]
    cases hfi : f i
    · simpa using hitFrom_eq_any g t f hf rest
    · simp

/-- C1: for every grid and every piece whose 4 cells all have `y >= 0`, `hit` returns, and
it returns `true` exactly when some cell is outside the playfield
(`x < 256`, `x >= 768` or `y >= 768`) or some cell maps to an occupied grid cell
`grid[23 - y/32][(x - 256)/32]`; in particular a piece with a cell at column `< 0`,
column `>= 16` or row `>= 24` is rejected. -/
theorem hit_iff_outside_or_occupied (g : Grid) (t : Tetromino)
    (hy : ∀ i, 0 ≤ (t i).rect.y) :
    (∃ b, hit g t = .ok b) ∧
    (hit g t = .ok true ↔
      ∃ i, outside (t i).rect ∨
        occupied g (23 - (t i).rect.y / 32) (((t i).rect.x - 256) / 32) = true) ∧
    (∀ i, (((t i).rect.x - 256) / 32 < 0 ∨ ((t i).rect.x - 256) / 32 ≥ 16 ∨
        (t i).rect.y / 32 ≥ 24) → hit g t = .ok true) := by
  have key := hitFrom_eq_any g t
    (fun i => decide (outside (t i).rect) ||
      occupied g (23 - (t i).rect.y / 32) (((t i).rect.x - 256) / 32))
    (fun i => hitCell_of_nonneg g (t i) (hy i)) (indices SIZE)
  have hiff : hit g t = .ok true ↔
      ∃ i, outside (t i).rect ∨
        occupied g (23 - (t i).rect.y / 32) (((t i).rect.x - 256) / 32) = true := by
    unfold hit
    rw [key]
    constructor
    · intro h
      have h2 := Except.ok.inj h
      rw [List.any_eq_true] at h2
      obtain ⟨i, _, hi⟩ := h2
      refine ⟨i, ?_⟩
      simpa using hi
    · rintro ⟨i, hi⟩
      congr 1
      rw [List.any_eq_true]
      exact ⟨i, mem_indices SIZE i, by simpa using hi⟩
  refine ⟨⟨_, key⟩, hiff, ?_⟩
  intro i hi
  refine hiff.mpr ⟨i, Or.inl ?_⟩
  unfold outside
  omega

/-- Witness of C1: the freshly spawned I piece on the empty grid. -/
theorem hit_iff_outside_or_occupied_witness :
    (∀ i, 0 ≤ ((select_tetromino 0 initial).tetromino i).rect.y) ∧
    ((∃ b, hit initial.grid (select_tetromino 0 initial).tetromino = .ok b) ∧
     (hit initial.grid (select_tetromino 0 initial).tetromino = .ok true ↔
       ∃ i, outside ((select_tetromino 0 initial).tetromino i).rect ∨
         occupied initial.grid (23 - ((select_tetromino 0 initial).tetromino i).rect.y / 32)
           ((((select_tetromino 0 initial).tetromino i).rect.x - 256) / 32) = true) ∧
     (∀ i, ((((select_tetromino 0 initial).tetromino i).rect.x - 256) / 32 < 0 ∨
         (((select_tetromino 0 initial).tetromino i).rect.x - 256) / 32 ≥ 16 ∨
         ((select_tetromino 0 initial).tetromino i).rect.y / 32 ≥ 24) →
       hit initial.grid (select_tetromino 0 initial).tetromino = .ok true)) :=
  ⟨by decide,
   hit_iff_outside_or_occupied initial.grid (select_tetromino 0 initial).tetromino (by decide)⟩

/-! ## The per-index loops of the moves -/

theorem restore_tetromino (s : State) (i : Fin SIZE) :
    (restore s).tetromino i = { s.tetromino i with rect := s.temp i } := by
  fin_cases i <;> rfl

theorem restore_frame (s : State) :
    (restore s).grid = s.grid ∧ (restore s).temp = s.temp ∧ (restore s).canMove = s.canMove ∧
    (restore s).score = s.score ∧ (restore s).level = s.level ∧ (restore s).speed = s.speed := by
  exact ⟨rfl, rfl, rfl, rfl, rfl, rfl⟩

theorem turn_tetromino (p : SDL_Rect) (s : State) (i : Fin SIZE) :
    (turn p s).tetromino i =
      { s.tetromino i with
        rect := { (s.tetromino i).rect with
                  x := p.x - ((s.tetromino i).rect.y - p.y)
                  y := p.y + ((s.tetromino i).rect.x - p.x) } } := by
  fin_cases i <;> rfl

theorem turn_frame (p : SDL_Rect) (s : State) :
    (turn p s).grid = s.grid ∧ (turn p s).temp = s.temp ∧ (turn p s).canMove = s.canMove ∧
    (turn p s).score = s.score ∧ (turn p s).level = s.level ∧ (turn p s).speed = s.speed := by
  exact ⟨rfl, rfl, rfl, rfl, rfl, rfl⟩

/-- What `rotate` does when the rotated position collides: every rectangle becomes the
content of `temp`, whatever that is. -/
theorem rotate_of_hit (s : State)
    (h : hit s.grid (turn (s.tetromino 1).rect s).tetromino = .ok true) :
    ∃ s1, rotate s = .ok s1 ∧ (∀ i, (s1.tetromino i).rect = s.temp i) ∧ s1.grid = s.grid := by
  refine ⟨restore (turn (s.tetromino 1).rect s), ?_, ?_, ?_⟩
  · unfold rotate
    simp only [(turn_frame _ s).1, h]
  · intro i
    rw [restore_tetromino, (turn_frame _ s).2.1]
  · rw [(restore_frame _).1, (turn_frame _ s).1]

/-- C2 (the code at the failing input): the upright I piece at the left wall is reached by
play; there `rotate` finds the rotated position colliding and, instead of leaving the piece
in column 0 (`x = 256`), puts it back where it was before the last `move_left`
(`x = 288`): the piece is not where it was immediately before the call. -/
theorem rotate_collision_moves_piece :
    ∃ s s1, playToLeftWall = .ok s ∧ rotate s = .ok s1 ∧
      hit s.grid (turn (s.tetromino 1).rect s).tetromino = .ok true ∧
      rects s = [⟨256, 0, 32, 32⟩, ⟨256, 32, 32, 32⟩, ⟨256, 64, 32, 32⟩, ⟨256, 96, 32, 32⟩] ∧
      rects s1 = [⟨288, 0, 32, 32⟩, ⟨288, 32, 32, 32⟩, ⟨288, 64, 32, 32⟩, ⟨288, 96, 32, 32⟩] :=
  ⟨_, _, rfl, rfl, rfl, by decide, by decide⟩

/-- C3 (the code at the failing input): in the play `besideStack` the piece stands beside the
stack and does not collide, while `temp` holds the position inside the stack saved by the
last `move_left`.  The rotated position collides, `rotate` copies `temp` back, and
afterwards the piece collides: it overlaps the locked cells in column 6. -/
theorem rotate_breaks_no_collision :
    ∃ s s1, besideStack = .ok s ∧ hit s.grid s.tetromino = .ok false ∧
      rotate s = .ok s1 ∧ hit s1.grid s1.tetromino = .ok true ∧
      rects s = [⟨416, 640, 32, 32⟩, ⟨416, 672, 32, 32⟩, ⟨416, 704, 32, 32⟩, ⟨416, 736, 32, 32⟩] ∧
      rects s1 = [⟨448, 640, 32, 32⟩, ⟨448, 672, 32, 32⟩, ⟨448, 704, 32, 32⟩, ⟨448, 736, 32, 32⟩] :=
  ⟨_, _, rfl, rfl, rfl, rfl, by decide, by decide⟩

theorem shiftLeft_tetromino (s : State) :
    (shiftLeft s).tetromino = translate (-32) 0 s.tetromino := by
  funext i
  have h : (shiftLeft s).tetromino i =
      { s.tetromino i with
        rect := { (s.tetromino i).rect with x := (s.tetromino i).rect.x - 32 } } := by
    fin_cases i <;> rfl
  rw [h]
  simp [translate, SDL_Rect.moved, Int.sub_eq_add_neg]

theorem shiftLeft_temp (s : State) (i : Fin SIZE) :
    (shiftLeft s).temp i = (s.tetromino i).rect := by
  fin_cases i <;> rfl

theorem shiftLeft_frame (s : State) :
    (shiftLeft s).grid = s.grid ∧ (shiftLeft s).canMove = s.canMove ∧
    (shiftLeft s).score = s.score ∧ (shiftLeft s).level = s.level ∧
    (shiftLeft s).speed = s.speed :=
  ⟨rfl, rfl, rfl, rfl, rfl⟩

theorem shiftRight_tetromino (s : State) :
    (shiftRight s).tetromino = translate 32 0 s.tetromino := by
  funext i
  have h : (shiftRight s).tetromino i =
      { s.tetromino i with
        rect := { (s.tetromino i).rect with x := (s.tetromino i).rect.x + 32 } } := by
    fin_cases i <;> rfl
  rw [h]
  simp [translate, SDL_Rect.moved]

theorem shiftRight_temp (s : State) (i : Fin SIZE) :
    (shiftRight s).temp i = (s.tetromino i).rect := by
  fin_cases i <;> rfl

theorem shiftRight_frame (s : State) :
    (shiftRight s).grid = s.grid ∧ (shiftRight s).canMove = s.canMove ∧
    (shiftRight s).score = s.score ∧ (shiftRight s).level = s.level ∧
    (shiftRight s).speed = s.speed :=
  ⟨rfl, rfl, rfl, rfl, rfl⟩

/-- Restoring right after a snapshot gives back the tetromino of before. -/
theorem restore_after_snapshot (s s1 : State) (hcol : ∀ i, (s1.tetromino i).red = (s.tetromino i).red ∧
      (s1.tetromino i).green = (s.tetromino i).green ∧ (s1.tetromino i).blue = (s.tetromino i).blue ∧
      (s1.tetromino i).hasRect = (s.tetromino i).hasRect)
    (htemp : ∀ i, s1.temp i = (s.tetromino i).rect) :
    (restore s1).tetromino = s.tetromino := by
  funext i
  rw [restore_tetromino, htemp i]
  obtain ⟨h1, h2, h3, h4⟩ := hcol i
  show ({ red := (s1.tetromino i).red, green := (s1.tetromino i).green,
          blue := (s1.tetromino i).blue, hasRect := (s1.tetromino i).hasRect,
          rect := (s.tetromino i).rect } : unit) = s.tetromino i
  rw [h1, h2, h3, h4]

/-- The two outcomes of `move_left` and of `move_right`: the translated piece when the
translated position does not collide, the piece of before when it does. -/
theorem move_left_right_cases (s : State) :
    (hit s.grid (translate (-32) 0 s.tetromino) = .ok false →
      ∃ s1, move_left s = .ok s1 ∧ s1.tetromino = translate (-32) 0 s.tetromino ∧
        sameGame s s1) ∧
    (hit s.grid (translate (-32) 0 s.tetromino) = .ok true →
      ∃ s1, move_left s = .ok s1 ∧ s1.tetromino = s.tetromino ∧ sameGame s s1) ∧
    (hit s.grid (translate 32 0 s.tetromino) = .ok false →
      ∃ s1, move_right s = .ok s1 ∧ s1.tetromino = translate 32 0 s.tetromino ∧
        sameGame s s1) ∧
    (hit s.grid (translate 32 0 s.tetromino) = .ok true →
      ∃ s1, move_right s = .ok s1 ∧ s1.tetromino = s.tetromino ∧ sameGame s s1) := by
  refine ⟨?_, ?_, ?_, ?_⟩
  · intro h
    refine ⟨shiftLeft s, ?_, shiftLeft_tetromino s, rfl, rfl, rfl, rfl⟩
    unfold move_left
    simp only [(shiftLeft_frame s).1, shiftLeft_tetromino, h]
  · intro h
    refine ⟨restore (shiftLeft s), ?_, ?_, rfl, rfl, rfl, rfl⟩
    · unfold move_left
      simp only [(shiftLeft_frame s).1, shiftLeft_tetromino, h]
    · apply restore_after_snapshot s (shiftLeft s) _ (shiftLeft_temp s)
      intro i
      rw [shiftLeft_tetromino]
      exact ⟨rfl, rfl, rfl, rfl⟩
  · intro h
    refine ⟨shiftRight s, ?_, shiftRight_tetromino s, rfl, rfl, rfl, rfl⟩
    unfold move_right
    simp only [(shiftRight_frame s).1, shiftRight_tetromino, h]
  · intro h
    refine ⟨restore (shiftRight s), ?_, ?_, rfl, rfl, rfl, rfl⟩
    · unfold move_right
      simp only [(shiftRight_frame s).1, shiftRight_tetromino, h]
    · apply restore_after_snapshot s (shiftRight s) _ (shiftRight_temp s)
      intro i
      rw [shiftRight_tetromino]
      exact ⟨rfl, rfl, rfl, rfl⟩

/-- C4: `move_left` (resp. `move_right`) leaves the piece translated by `-32` (resp. `+32`)
in `x` with `y` unchanged when the translated position does not collide, and leaves the
piece exactly as before the call when it collides; the grid, the score, the level and
the speed are unchanged in both cases. -/
theorem move_left_right_spec (s : State) :
    (hit s.grid (translate (-32) 0 s.tetromino) = .ok false →
      ∃ s1, move_left s = .ok s1 ∧ s1.tetromino = translate (-32) 0 s.tetromino ∧
        sameGame s s1) ∧
    (hit s.grid (translate (-32) 0 s.tetromino) = .ok true →
      ∃ s1, move_left s = .ok s1 ∧ s1.tetromino = s.tetromino ∧ sameGame s s1) ∧
    (hit s.grid (translate 32 0 s.tetromino) = .ok false →
      ∃ s1, move_right s = .ok s1 ∧ s1.tetromino = translate 32 0 s.tetromino ∧
        sameGame s s1) ∧
    (hit s.grid (translate 32 0 s.tetromino) = .ok true →
      ∃ s1, move_right s = .ok s1 ∧ s1.tetromino = s.tetromino ∧ sameGame s s1) :=
  move_left_right_cases s

/-- Witness of C4: the four cases at concrete states (free to the left and to the right
at the spawn position, blocked by the left wall, blocked by the right wall). -/
theorem move_left_right_spec_witness :
    (hit (select_tetromino 0 initial).grid
        (translate (-32) 0 (select_tetromino 0 initial).tetromino) = .ok false ∧
      ∃ s1, move_left (select_tetromino 0 initial) = .ok s1 ∧
        s1.tetromino = translate (-32) 0 (select_tetromino 0 initial).tetromino ∧
        sameGame (select_tetromino 0 initial) s1) ∧
    (hit uprightAtLeftWall.grid (translate (-32) 0 uprightAtLeftWall.tetromino) = .ok true ∧
      ∃ s1, move_left uprightAtLeftWall = .ok s1 ∧
        s1.tetromino = uprightAtLeftWall.tetromino ∧ sameGame uprightAtLeftWall s1) ∧
    (hit (select_tetromino 0 initial).grid
        (translate 32 0 (select_tetromino 0 initial).tetromino) = .ok false ∧
      ∃ s1, move_right (select_tetromino 0 initial) = .ok s1 ∧
        s1.tetromino = translate 32 0 (select_tetromino 0 initial).tetromino ∧
        sameGame (select_tetromino 0 initial) s1) ∧
    (hit uprightAtRightWall.grid (translate 32 0 uprightAtRightWall.tetromino) = .ok true ∧
      ∃ s1, move_right uprightAtRightWall = .ok s1 ∧
        s1.tetromino = uprightAtRightWall.tetromino ∧ sameGame uprightAtRightWall s1) :=
  ⟨⟨rfl, (move_left_right_spec (select_tetromino 0 initial)).1 rfl⟩,
   ⟨rfl, (move_left_right_spec uprightAtLeftWall).2.1 rfl⟩,
   ⟨rfl, (move_left_right_spec (select_tetromino 0 initial)).2.2.1 rfl⟩,
   ⟨rfl, (move_left_right_spec uprightAtRightWall).2.2.2 rfl⟩⟩

/-! ## `gravity` -/

theorem gravityRow_fold (i im1 : Fin M) (h : i ≠ im1) :
    ∀ (l : List (Fin N)) (g : Grid) (r : Fin M) (c : Fin N),
      l.foldl
        (fun g j =>
          let g1 := g.set im1 j (g i j)
          g1.set im1 j
            { g1 im1 j with rect := { (g1 im1 j).rect with y := (g1 im1 j).rect.y + 32 } })
        g r c = if r = im1 ∧ c ∈ l then lowered (g i c) else g r c
  | [], g, r, c => by simp
  | j :: l, g, r, c => by
    rw [List.foldl_cons, gravityRow_fold i im1 h l]
    by_cases hr : r = im1
    · subst hr
      by_cases hc : c = j
      · subst hc
        by_cases hl : c ∈ l <;> simp [Grid.set, lowered, hl, h]
      · by_cases hl : c ∈ l <;> simp [Grid.set, lowered, hl, h, hc]
    · simp [Grid.set, hr]

theorem gravityRow_apply (g : Grid) (i im1 : Fin M) (h : i ≠ im1) (r : Fin M) (c : Fin N) :
    gravityRow g i im1 r c = if r = im1 then lowered (g i c) else g r c := by
  unfold gravityRow
  rw [gravityRow_fold i im1 h]
  simp [mem_indices]

/-- The rows touched by the loop of `gravity` started at `i >= 1` with `n` iterations left:
row `r - 1` receives the lowered row `r` for `i <= r < i + n`; every other row is kept. -/
theorem gravityLoop_spec : ∀ (n i : Nat) (g : Grid), 1 ≤ i → i + n ≤ M →
    ∃ g1, gravityLoop n (i : Int) g = .ok g1 ∧
      (∀ (r r1 : Fin M) (c : Fin N), r1.val = r.val + 1 → i ≤ r1.val → r1.val < i + n →
        g1 r c = lowered (g r1 c)) ∧
      (∀ (r : Fin M), ¬ (i ≤ r.val + 1 ∧ r.val + 1 < i + n) → g1 r = g r)
  | 0, i, g, _, _ => ⟨g, rfl, fun r r1 c _ h2 h3 => by omega, fun _ _ => rfl⟩
  | n + 1, i, g, hi, hn => by
    have h1 := index_ok M ((i : Int) - 1) (by omega)
    have h2 := index_ok M (i : Int) (by omega)
    have hne : (⟨((i : Int)).toNat, by omega⟩ : Fin M) ≠ ⟨((i : Int) - 1).toNat, by omega⟩ := by
      intro h
      have := congrArg Fin.val h
      simp only at this
      omega
    obtain ⟨g1, hg1, hlow, hkeep⟩ := gravityLoop_spec n (i + 1)
      (gravityRow g ⟨((i : Int)).toNat, by omega⟩ ⟨((i : Int) - 1).toNat, by omega⟩)
      (by omega) (by omega)
    refine ⟨g1, ?_, ?_, ?_⟩
    · simp only [gravityLoop, h1, h2]
      exact_mod_cast hg1
    · intro r r1 c hr h3 h4
      by_cases hlt : i + 1 ≤ r1.val
      · rw [hlow r r1 c hr hlt (by omega), gravityRow_apply _ _ _ hne]
        have : r1 ≠ ⟨((i : Int) - 1).toNat, by omega⟩ := by
          intro h
          have := congrArg Fin.val h
          simp only at this
          omega
        rw [if_neg this]
      · have hri : r1.val = i := by omega
        rw [hkeep r (by omega)]
        rw [gravityRow_apply _ _ _ hne]
        have e1 : r = ⟨((i : Int) - 1).toNat, by omega⟩ := by
          apply Fin.ext
          simp only
          omega
        have e2 : r1 = ⟨((i : Int)).toNat, by omega⟩ := by
          apply Fin.ext
          simp only
          omega
        rw [if_pos e1, e2]
    · intro r hr
      rw [hkeep r (by omega)]
      funext c
      rw [gravityRow_apply _ _ _ hne]
      have : r ≠ ⟨((i : Int) - 1).toNat, by omega⟩ := by
        intro h
        have := congrArg Fin.val h
        simp only at this
        omega
      rw [if_neg this]

/-- The effect of `gravity(i+1)` for a row index `i < M`. -/
theorem gravity_succ_spec (i : Nat) (g : Grid) (hi : i < M) :
    ∃ g1, gravity ((i : Int) + 1) g = .ok g1 ∧
      (∀ (r r1 : Fin M) (c : Fin N), r1.val = r.val + 1 → i ≤ r.val → g1 r c = lowered (g r1 c)) ∧
      (∀ (r : Fin M), r.val < i → g1 r = g r) ∧ g1 topRow = g topRow := by
  obtain ⟨g1, hg1, hlow, hkeep⟩ := gravityLoop_spec (M - (i + 1)) (i + 1) g (by omega) (by omega)
  refine ⟨g1, ?_, ?_, ?_, ?_⟩
  · unfold gravity
    have : ((M : Int) - ((i : Int) + 1)).toNat = M - (i + 1) := by omega
    rw [this]
    exact_mod_cast hg1
  · intro r r1 c hr h1
    exact hlow r r1 c hr (by omega) (by have := r1.isLt; omega)
  · intro r hr
    exact hkeep r (by omega)
  · have hM : M = 24 := rfl
    exact hkeep topRow (by simp only [topRow]; omega)

/-! ## Counting full rows -/

theorem length_indices : ∀ n : Nat, (indices n).length = n
  | 0 => rfl
  | n + 1 => by simp [indices, length_indices n]

theorem countRow_fold (p : Fin N → Bool) :
    ∀ (l : List (Fin N)) (k : Nat),
      l.foldl (fun count j => if p j then count + 1 else count) k = k + l.countP p
  | [], k => by simp
  | j :: l, k => by
    rw [List.foldl_cons, countRow_fold p l, List.countP_cons]
    by_cases h : p j
    · simp only [h, if_true]; omega
    · simp only [h, Bool.false_eq_true, if_false]; omega

theorem countRow_eq_iff (g : Grid) (i : Fin M) : countRow g i = N ↔ rowFull g i := by
  unfold countRow
  rw [countRow_fold (fun j => (g i j).hasRect), Nat.zero_add]
  have hlen : (indices N).length = N := length_indices N
  constructor
  · intro h c
    have h2 : (indices N).countP (fun j => (g i j).hasRect) = (indices N).length := by
      rw [h, hlen]
    rw [List.countP_eq_length] at h2
    exact h2 c (mem_indices N c)
  · intro h
    have h2 : (indices N).countP (fun j => (g i j).hasRect) = (indices N).length := by
      rw [List.countP_eq_length]
      intro c _
      exact h c
    rw [h2, hlen]

theorem fullAt_of_lt (g : Grid) (i : Nat) (h : i < M) :
    fullAt g i = decide (rowFull g ⟨i, h⟩) := by
  unfold fullAt
  rw [dif_pos h]

theorem fullAt_eq_of_row_eq (g g1 : Grid) (r : Fin M) (h : g1 r = g r) :
    fullAt g1 r.val = fullAt g r.val := by
  rw [fullAt_of_lt g1 r.val r.isLt, fullAt_of_lt g r.val r.isLt]
  simp only [rowFull, Fin.eta, h]

theorem fullAt_lowered (g g1 : Grid) (r r1 : Fin M)
    (h : ∀ c, g1 r c = lowered (g r1 c)) : fullAt g1 r.val = fullAt g r1.val := by
  rw [fullAt_of_lt g1 r.val r.isLt, fullAt_of_lt g r1.val r1.isLt]
  simp only [rowFull, Fin.eta, h, lowered]

theorem fullRows_eq_from_zero (g : Grid) : fullRows g = fullRowsFrom g 0 := by
  unfold fullRows fullRowsFrom
  rw [List.range_eq_range', Nat.sub_zero]

theorem fullRowsFrom_top (g : Grid) (i : Nat) (h : M ≤ i) : fullRowsFrom g i = 0 := by
  unfold fullRowsFrom
  have : M - i = 0 := by omega
  rw [this]
  rfl

theorem fullRowsFrom_step (g : Grid) (i : Nat) (h : i < M) :
    fullRowsFrom g i = fullRowsFrom g (i + 1) + if fullAt g i then 1 else 0 := by
  unfold fullRowsFrom
  have : M - i = (M - (i + 1)) + 1 := by omega
  rw [this, List.range'_succ, List.countP_cons]

/-- After `gravity(i+1)` on a grid whose top row is not full, the full rows from `i` on are
the former full rows from `i + 1` on. -/
theorem fullRowsFrom_shift (g g1 : Grid) (i : Nat) (hi : i < 23)
    (hsh : ∀ r, i ≤ r → r < 23 → fullAt g1 r = fullAt g (r + 1))
    (htop : fullAt g1 23 = false) :
    fullRowsFrom g1 i = fullRowsFrom g (i + 1) := by
  unfold fullRowsFrom
  have e1 : M - i = (23 - i) + 1 := by simp only [M]; omega
  have e2 : M - (i + 1) = 23 - i := by simp only [M]; omega
  have e3 : i + 1 * (23 - i) = 23 := by omega
  rw [e1, e2, List.range'_concat, List.countP_append, e3]
  have e4 : List.range' (i + 1) (23 - i) = List.map (1 + ·) (List.range' i (23 - i)) := by
    rw [List.map_add_range', Nat.add_comm 1 i]
  rw [e4, List.countP_map]
  have e5 : List.countP (fullAt g1) [23] = 0 := by simp [List.countP_cons, htop]
  rw [e5, Nat.add_zero]
  apply List.countP_congr
  intro r hr
  rw [List.mem_range'_1] at hr
  simp only [Function.comp]
  rw [hsh r hr.1 (by omega), Nat.add_comm 1 r]

theorem fullRowsFrom_le (g : Grid) (i : Nat) : fullRowsFrom g i ≤ M - i := by
  unfold fullRowsFrom
  have := @List.countP_le_length _ (fullAt g) (List.range' i (M - i))
  simpa using this

/-! ## `check_lines` -/

theorem awardLine_frame (s : State) :
    (awardLine s).grid = s.grid ∧ (awardLine s).tetromino = s.tetromino ∧
    (awardLine s).temp = s.temp ∧ (awardLine s).canMove = s.canMove ∧
    (awardLine s).score = s.score + 100 := by
  simp only [awardLine]
  split_ifs <;> exact ⟨rfl, rfl, rfl, rfl, rfl⟩

theorem fullAt_ge (g : Grid) (r : Nat) (h : M ≤ r) : fullAt g r = false := by
  unfold fullAt
  rw [dif_neg (by omega)]

theorem check_lines_loop_succ (fuel i : Nat) (s : State) :
    check_lines_loop (fuel + 1) i s =
      if h : i < M then
        if countRow s.grid ⟨i, h⟩ = N then
          match gravity ((i : Int) + 1) s.grid with
          | .ok g => check_lines_loop fuel i (awardLine { s with grid := g })
          | .error e => .error e
        else check_lines_loop fuel (i + 1) s
      else .ok s := rfl


/-- The loop of `check_lines` started at row `i` on a grid whose top row is not full: with
fuel beyond `(M - i) +` the number of full rows from `i` on, it returns; the score has
grown by 100 per full row from `i` on, no row from `i` on is full any more, the rows below
`i` and the piece are untouched. -/
theorem check_lines_loop_spec : ∀ (fuel i : Nat) (s : State), i ≤ M →
    fullAt s.grid 23 = false → (M - i) + fullRowsFrom s.grid i < fuel →
    ∃ s1, check_lines_loop fuel i s = .ok s1 ∧
      s1.score = s.score + 100 * (fullRowsFrom s.grid i : Int) ∧
      (∀ r, i ≤ r → fullAt s1.grid r = false) ∧
      (∀ r : Fin M, r.val < i → s1.grid r = s.grid r) ∧
      s1.tetromino = s.tetromino ∧ s1.temp = s.temp ∧ s1.canMove = s.canMove
  | 0, _, _, _, _, hf => by omega
  | fuel + 1, i, s, hi, htop, hf => by
    by_cases h : i < M
    · by_cases hfull : countRow s.grid ⟨i, h⟩ = N
      · have hrow : rowFull s.grid ⟨i, h⟩ := (countRow_eq_iff _ _).mp hfull
        have hat : fullAt s.grid i = true := by
          rw [fullAt_of_lt _ _ h]; exact decide_eq_true hrow
        have hi23 : i < 23 := by
          have hM : M = 24 := rfl
          by_contra hc
          have : i = 23 := by omega
          rw [this] at hat
          rw [hat] at htop
          exact Bool.noConfusion htop
        obtain ⟨g1, hg1, hlow, hkeep, htop1⟩ := gravity_succ_spec i s.grid h
        have hstep := fullRowsFrom_step s.grid i h
        rw [hat] at hstep
        simp only [if_true] at hstep
        have htop2 : fullAt g1 23 = false := by
          have := fullAt_eq_of_row_eq s.grid g1 topRow htop1
          simp only [topRow] at this
          rw [this]; exact htop
        have hshift : fullRowsFrom g1 i = fullRowsFrom s.grid (i + 1) := by
          apply fullRowsFrom_shift s.grid g1 i hi23 _ htop2
          intro r hr1 hr2
          have hM : M = 24 := rfl
          exact fullAt_lowered s.grid g1 ⟨r, by omega⟩ ⟨r + 1, by omega⟩
            (fun c => hlow ⟨r, by omega⟩ ⟨r + 1, by omega⟩ c rfl hr1)
        obtain ⟨hag, hat2, hatemp, hacm, hasc⟩ := awardLine_frame { s with grid := g1 }
        obtain ⟨s1, hs1, hscore, hnofull, hrows, ht, htmp, hcm⟩ :=
          check_lines_loop_spec fuel i (awardLine { s with grid := g1 }) hi
            (by rw [hag]; exact htop2) (by rw [hag, hshift]; omega)
        refine ⟨s1, ?_, ?_, hnofull, ?_, ?_, ?_, ?_⟩
        · rw [check_lines_loop_succ, dif_pos h, if_pos hfull, hg1]
          exact hs1
        · rw [hscore, hasc, hag, hshift, hstep]
          push_cast
          ring
        · intro r hr
          rw [hrows r hr, hag]
          exact hkeep r hr
        · rw [ht, hat2]
        · rw [htmp, hatemp]
        · rw [hcm, hacm]
      · have hat : fullAt s.grid i = false := by
          rw [fullAt_of_lt _ _ h]
          exact decide_eq_false (fun hr => hfull ((countRow_eq_iff _ _).mpr hr))
        have hstep := fullRowsFrom_step s.grid i h
        rw [hat] at hstep
        simp only [Bool.false_eq_true, if_false, Nat.add_zero] at hstep
        obtain ⟨s1, hs1, hscore, hnofull, hrows, ht, htmp, hcm⟩ :=
          check_lines_loop_spec fuel (i + 1) s (by omega) htop (by rw [← hstep]; omega)
        refine ⟨s1, ?_, ?_, ?_, ?_, ht, htmp, hcm⟩
        · rw [check_lines_loop_succ, dif_pos h, if_neg hfull]
          exact hs1
        · rw [hscore, hstep]
        · intro r hr
          by_cases hri : r = i
          · subst hri
            have := fullAt_eq_of_row_eq s.grid s1.grid ⟨r, h⟩ (hrows ⟨r, h⟩ (by simp))
            simp only at this
            rw [this]; exact hat
          · exact hnofull r (by omega)
        · intro r hr
          exact hrows r (by omega)
    · refine ⟨s, ?_, ?_, ?_, ?_, rfl, rfl, rfl⟩
      · rw [check_lines_loop_succ, dif_neg h]
      · rw [fullRowsFrom_top _ _ (by omega)]
        simp
      · intro r hr
        exact fullAt_ge _ _ (by omega)
      · intro r _
        rfl

/-- More fuel does not change a result of the loop of `check_lines`. -/
theorem check_lines_loop_mono : ∀ (fuel i : Nat) (s s1 : State),
    check_lines_loop fuel i s = .ok s1 → ∀ k, check_lines_loop (fuel + k) i s = .ok s1
  | 0, i, s, _, h, _ => by
    have h0 : check_lines_loop 0 i s = .error .outOfFuel := rfl
    rw [h0] at h
    cases h
  | fuel + 1, i, s, s1, h, k => by
    rw [Nat.add_right_comm, check_lines_loop_succ]
    rw [check_lines_loop_succ] at h
    by_cases hi : i < M
    · rw [dif_pos hi] at h ⊢
      by_cases hfull : countRow s.grid ⟨i, hi⟩ = N
      · rw [if_pos hfull] at h ⊢
        cases hg : gravity ((i : Int) + 1) s.grid with
        | ok g =>
          rw [hg] at h
          exact check_lines_loop_mono fuel i _ s1 h k
        | error e =>
          rw [hg] at h
          cases h
      · rw [if_neg hfull] at h ⊢
        exact check_lines_loop_mono fuel (i + 1) s s1 h k
    · rw [dif_neg hi] at h ⊢
      exact h

/-- While the top row is full the loop of `check_lines` never leaves row 23: it runs out of
any amount of fuel. -/
theorem check_lines_loop_top_full : ∀ (fuel i : Nat) (s : State), i < M →
    fullAt s.grid 23 = true → check_lines_loop fuel i s = .error .outOfFuel
  | 0, _, _, _, _ => rfl
  | fuel + 1, i, s, hi, htop => by
    have hM : M = 24 := rfl
    rw [check_lines_loop_succ, dif_pos hi]
    by_cases hfull : countRow s.grid ⟨i, hi⟩ = N
    · rw [if_pos hfull]
      obtain ⟨g1, hg1, _, _, htop1⟩ := gravity_succ_spec i s.grid hi
      rw [hg1]
      apply check_lines_loop_top_full fuel i _ hi
      rw [(awardLine_frame _).1]
      have := fullAt_eq_of_row_eq s.grid g1 topRow htop1
      simp only [topRow] at this
      rw [this]; exact htop
    · rw [if_neg hfull]
      have hne : i ≠ 23 := by
        intro h23
        subst h23
        apply hfull
        rw [countRow_eq_iff]
        rw [fullAt_of_lt _ _ hi] at htop
        exact of_decide_eq_true htop
      exact check_lines_loop_top_full fuel (i + 1) s (by omega) htop

theorem fullAt_top (g : Grid) : fullAt g 23 = decide (rowFull g topRow) :=
  fullAt_of_lt g 23 (by decide)

theorem fullRows_le (g : Grid) (htop : fullAt g 23 = false) : fullRows g ≤ 23 := by
  unfold fullRows
  have e : List.range M = List.range 23 ++ [23] := List.range_succ 23
  rw [e, List.countP_append]
  have e5 : List.countP (fullAt g) [23] = 0 := by simp [List.countP_cons, htop]
  rw [e5, Nat.add_zero]
  have := @List.countP_le_length _ (fullAt g) (List.range 23)
  simpa using this

/-- One pass of `check_lines` over a grid whose top row is not full: it returns (with any
fuel from 48 on), the score has grown by 100 per full row, no row is full afterwards, and
the piece is untouched. -/
theorem check_lines_returns (s : State) (htop : fullAt s.grid 23 = false) :
    ∃ s1, (∀ fuel, 48 ≤ fuel → check_lines fuel s = .ok s1) ∧
      s1.score = s.score + 100 * (fullRows s.grid : Int) ∧
      (∀ r, fullAt s1.grid r = false) ∧
      s1.tetromino = s.tetromino ∧ s1.temp = s.temp ∧ s1.canMove = s.canMove := by
  have hle := fullRows_le s.grid htop
  rw [fullRows_eq_from_zero] at hle
  obtain ⟨s1, hs1, hscore, hnofull, _, ht, htmp, hcm⟩ :=
    check_lines_loop_spec 48 0 s (by omega) htop (by simp only [M]; omega)
  refine ⟨s1, ?_, ?_, fun r => hnofull r (Nat.zero_le r), ht, htmp, hcm⟩
  · intro fuel hfuel
    have := check_lines_loop_mono 48 0 s s1 hs1 (fuel - 48)
    have e : 48 + (fuel - 48) = fuel := by omega
    rw [e] at this
    exact this
  · rw [hscore, fullRows_eq_from_zero]

theorem noFullRow_of_fullAt (g : Grid) (h : ∀ r, fullAt g r = false) : noFullRow g := by
  intro r hr
  have := h r.val
  rw [fullAt_of_lt g r.val r.isLt] at this
  exact (of_decide_eq_false this) hr

/-- C8 (the claim as stated fails): on the grid whose top row is full, `check_lines` does not
complete a pass, whatever the fuel; so there is no grid "after the pass". -/
theorem check_lines_top_full_diverges :
    rowFull topRowFull.grid topRow ∧
    ∀ fuel, check_lines fuel topRowFull = .error .outOfFuel :=
  ⟨by decide, fun fuel =>
    check_lines_loop_top_full fuel 0 topRowFull (by decide)
      (by rw [fullAt_top]; exact decide_eq_true (by decide))⟩

/-- C8 (amended): for every grid whose top row (index 23) is not full, one pass of
`check_lines` terminates and afterwards no row of the grid is full: all rows that were
full at the same time are cleared within that single pass. -/
theorem check_lines_clears_all_full_rows (s : State) (htop : ¬ rowFull s.grid topRow) :
    ∃ s1, (∀ fuel, 48 ≤ fuel → check_lines fuel s = .ok s1) ∧ noFullRow s1.grid := by
  obtain ⟨s1, hs1, _, hno, _⟩ :=
    check_lines_returns s (by rw [fullAt_top]; exact decide_eq_false htop)
  exact ⟨s1, hs1, noFullRow_of_fullAt _ hno⟩

/-- C9: for every grid whose top row (index 23) is not full, `check_lines` returns and the
score has grown by exactly 100 times the number of full rows of the input grid; in
particular it is unchanged when no row is full. -/
theorem check_lines_score (s : State) (htop : ¬ rowFull s.grid topRow) :
    ∃ s1, (∀ fuel, 48 ≤ fuel → check_lines fuel s = .ok s1) ∧
      s1.score = s.score + 100 * (fullRows s.grid : Int) ∧
      (noFullRow s.grid → s1.score = s.score) := by
  obtain ⟨s1, hs1, hscore, _⟩ :=
    check_lines_returns s (by rw [fullAt_top]; exact decide_eq_false htop)
  refine ⟨s1, hs1, hscore, ?_⟩
  intro hno
  have h0 : fullRows s.grid = 0 := by
    unfold fullRows
    rw [List.countP_eq_zero]
    intro r hr
    rw [List.mem_range] at hr
    rw [fullAt_of_lt _ _ hr]
    simpa using hno ⟨r, hr⟩
  rw [hscore, h0]
  simp

/-- C10 (the claim as stated fails): with a score of 999900 (at most `MAX_SCORE`) and two
full rows, `check_lines` leaves a score of 1000100, above `MAX_SCORE`. -/
theorem check_lines_exceeds_max_score :
    twoRowsNearCap.score ≤ MAX_SCORE ∧
    ∃ s1, check_lines 48 twoRowsNearCap = .ok s1 ∧ s1.score = 1000100 ∧
      ¬ s1.score ≤ MAX_SCORE := by
  obtain ⟨s1, hs1, hscore, _⟩ :=
    check_lines_returns twoRowsNearCap (by rw [fullAt_top]; exact decide_eq_false (by decide))
  have h2 : fullRows twoRowsNearCap.grid = 2 := by decide
  have hsc : s1.score = 1000100 := by
    rw [hscore, h2]
    rfl
  refine ⟨by decide, s1, hs1 48 (Nat.le_refl 48), hsc, ?_⟩
  rw [hsc]
  decide

/-- C10 (amended): `check_lines` does not cap the score.  For every state with
`score <= 1000000` whose top row is not full, it returns with the score grown by exactly
100 per full row of the input grid; there are at most 23 full rows, so the new score is at
most 1002300, and it is at most 1000000 exactly when
`score + 100 * (number of full rows)` is. -/
theorem check_lines_score_bound (s : State) (hs : s.score ≤ MAX_SCORE)
    (htop : ¬ rowFull s.grid topRow) :
    ∃ s1, (∀ fuel, 48 ≤ fuel → check_lines fuel s = .ok s1) ∧
      s1.score = s.score + 100 * (fullRows s.grid : Int) ∧
      fullRows s.grid ≤ 23 ∧
      s1.score ≤ MAX_SCORE + 2300 ∧
      (s1.score ≤ MAX_SCORE ↔ s.score + 100 * (fullRows s.grid : Int) ≤ MAX_SCORE) := by
  have htop2 : fullAt s.grid 23 = false := by rw [fullAt_top]; exact decide_eq_false htop
  obtain ⟨s1, hs1, hscore, _⟩ := check_lines_returns s htop2
  have hle := fullRows_le s.grid htop2
  refine ⟨s1, hs1, hscore, hle, ?_, ?_⟩
  · rw [hscore]
    omega
  · rw [hscore]

/-- Witness of C8 (amended): two full rows below a top row that is not full. -/
theorem check_lines_clears_all_full_rows_witness :
    (¬ rowFull twoRowsNearCap.grid topRow) ∧
    ∃ s1, (∀ fuel, 48 ≤ fuel → check_lines fuel twoRowsNearCap = .ok s1) ∧
      noFullRow s1.grid :=
  ⟨by decide, check_lines_clears_all_full_rows twoRowsNearCap (by decide)⟩

/-- Witness of C9: two full rows give 200 points. -/
theorem check_lines_score_witness :
    (¬ rowFull twoRowsNearCap.grid topRow) ∧
    ∃ s1, (∀ fuel, 48 ≤ fuel → check_lines fuel twoRowsNearCap = .ok s1) ∧
      s1.score = twoRowsNearCap.score + 100 * (fullRows twoRowsNearCap.grid : Int) ∧
      (noFullRow twoRowsNearCap.grid → s1.score = twoRowsNearCap.score) :=
  ⟨by decide, check_lines_score twoRowsNearCap (by decide)⟩

/-- Witness of C10 (amended): a score of 999900 and two full rows below a top row that is
not full; the pass awards 200 points. -/
theorem check_lines_score_bound_witness :
    (twoRowsNearCap.score ≤ MAX_SCORE ∧ ¬ rowFull twoRowsNearCap.grid topRow ∧
     fullRows twoRowsNearCap.grid = 2) ∧
    ∃ s1, (∀ fuel, 48 ≤ fuel → check_lines fuel twoRowsNearCap = .ok s1) ∧
      s1.score = twoRowsNearCap.score + 100 * (fullRows twoRowsNearCap.grid : Int) ∧
      fullRows twoRowsNearCap.grid ≤ 23 ∧
      s1.score ≤ MAX_SCORE + 2300 ∧
      (s1.score ≤ MAX_SCORE ↔
        twoRowsNearCap.score + 100 * (fullRows twoRowsNearCap.grid : Int) ≤ MAX_SCORE) :=
  ⟨⟨by decide, by decide, by decide⟩,
   check_lines_score_bound twoRowsNearCap (by decide) (by decide)⟩

/-! ## `lock` -/

theorem lockCell_zero (s : State) (i : Fin SIZE) (h : (s.temp i).y = 0) :
    lockCell s i = .error .exit0 := by
  unfold lockCell
  rw [if_pos h]

theorem lockCell_ok_frame (s s1 : State) (i : Fin SIZE) (h : lockCell s i = .ok s1) :
    (s.temp i).y ≠ 0 ∧ s1.tetromino = s.tetromino ∧ s1.temp = s.temp ∧
    s1.canMove = s.canMove ∧ s1.score = s.score ∧ s1.level = s.level ∧
    s1.speed = s.speed := by
  unfold lockCell at h
  by_cases hy : (s.temp i).y = 0
  · rw [if_pos hy] at h
    cases h
  · rw [if_neg hy] at h
    simp only at h
    split at h
    · cases h
      exact ⟨hy, rfl, rfl, rfl, rfl, rfl, rfl⟩
    · cases h

theorem lockCell_exit (s : State) (i : Fin SIZE) (h : lockCell s i = .error .exit0) :
    (s.temp i).y = 0 := by
  unfold lockCell at h
  by_cases hy : (s.temp i).y = 0
  · exact hy
  · rw [if_neg hy] at h
    simp only at h
    split at h <;> cases h

theorem lockCell_not_fuel (s : State) (i : Fin SIZE) :
    lockCell s i ≠ .error .outOfFuel := by
  intro h
  unfold lockCell at h
  by_cases hy : (s.temp i).y = 0
  · rw [if_pos hy] at h
    cases h
  · rw [if_neg hy] at h
    simp only at h
    split at h <;> cases h

theorem lockFrom_ok_frame : ∀ (l : List (Fin SIZE)) (s s1 : State), lockFrom l s = .ok s1 →
    (∀ i ∈ l, (s.temp i).y ≠ 0) ∧ s1.tetromino = s.tetromino ∧ s1.temp = s.temp ∧
    s1.canMove = s.canMove ∧ s1.score = s.score ∧ s1.level = s.level ∧
    s1.speed = s.speed
  | [], s, s1, h => by
    cases h
    exact ⟨(fun i hi => by cases hi), rfl, rfl, rfl, rfl, rfl, rfl⟩
  | i :: l, s, s1, h => by
    unfold lockFrom at h
    cases hc : lockCell s i with
    | error e => rw [hc] at h; cases h
    | ok s2 =>
      rw [hc] at h
      obtain ⟨hy, h1, h2, h3, h4, h5, h6⟩ := lockCell_ok_frame s s2 i hc
      obtain ⟨hys, k1, k2, k3, k4, k5, k6⟩ := lockFrom_ok_frame l s2 s1 h
      refine ⟨?_, k1.trans h1, k2.trans h2, k3.trans h3, k4.trans h4, k5.trans h5,
        k6.trans h6⟩
      intro j hj
      rcases List.mem_cons.mp hj with rfl | hj
      · exact hy
      · have := hys j hj
        rwa [h2] at this

theorem lockFrom_exit : ∀ (l : List (Fin SIZE)) (s : State),
    lockFrom l s = .error .exit0 → ∃ i ∈ l, (s.temp i).y = 0
  | [], s, h => by cases h
  | i :: l, s, h => by
    unfold lockFrom at h
    cases hc : lockCell s i with
    | error e =>
      rw [hc] at h
      cases h
      exact ⟨i, List.mem_cons_self _ _, lockCell_exit s i hc⟩
    | ok s2 =>
      rw [hc] at h
      obtain ⟨j, hj, hy⟩ := lockFrom_exit l s2 h
      rw [(lockCell_ok_frame s s2 i hc).2.2.1] at hy
      exact ⟨j, List.mem_cons_of_mem _ hj, hy⟩

theorem lockFrom_not_fuel : ∀ (l : List (Fin SIZE)) (s : State),
    lockFrom l s ≠ .error .outOfFuel
  | [], s, h => by cases h
  | i :: l, s, h => by
    unfold lockFrom at h
    cases hc : lockCell s i with
    | error e =>
      rw [hc] at h
      cases h
      exact lockCell_not_fuel s i hc
    | ok s2 =>
      rw [hc] at h
      exact lockFrom_not_fuel l s2 h

/-- C6: on every state on which `lock` stays inside the grid array (its behaviour in C is
defined), `lock` ends the game by `exit(0)` if and only if at least one of the 4
pre-collision cells `temp[i]` has `y == 0`, and it returns when none has; the grid
content, full rows included, plays no role. -/
theorem lock_exits_iff_top_cell (s : State) (hdef : lock s ≠ .error .outOfBounds) :
    (lock s = .error .exit0 ↔ ∃ i, (s.temp i).y = 0) ∧
    ((∀ i, (s.temp i).y ≠ 0) → ∃ s1, lock s = .ok s1) := by
  refine ⟨?_, ?_⟩
  swap
  · intro hno
    cases hl : lock s with
    | ok s1 => exact ⟨s1, rfl⟩
    | error e =>
      cases e with
      | exit0 =>
        obtain ⟨i, _, hi⟩ := lockFrom_exit (indices SIZE) s hl
        exact absurd hi (hno i)
      | outOfBounds => exact absurd hl hdef
      | outOfFuel => exact absurd hl (lockFrom_not_fuel (indices SIZE) s)
  constructor
  · intro h
    obtain ⟨i, _, hi⟩ := lockFrom_exit (indices SIZE) s h
    exact ⟨i, hi⟩
  · rintro ⟨i, hi⟩
    cases hl : lock s with
    | ok s1 =>
      exact absurd hi ((lockFrom_ok_frame (indices SIZE) s s1 hl).1 i (mem_indices SIZE i))
    | error e =>
      cases e with
      | exit0 => rfl
      | outOfBounds => exact absurd hl hdef
      | outOfFuel => exact absurd hl (lockFrom_not_fuel (indices SIZE) s)

/-- Witness of C6: the I piece snapshotted at its spawn row (`y = 0`) ends the game. -/
theorem lock_exits_iff_top_cell_witness :
    lock (shiftDown (select_tetromino 0 initial)) ≠ .error .outOfBounds ∧
    ((lock (shiftDown (select_tetromino 0 initial)) = .error .exit0 ↔
      ∃ i, ((shiftDown (select_tetromino 0 initial)).temp i).y = 0) ∧
     ((∀ i, ((shiftDown (select_tetromino 0 initial)).temp i).y ≠ 0) →
      ∃ s1, lock (shiftDown (select_tetromino 0 initial)) = .ok s1)) :=
  ⟨(fun h => Halt.noConfusion (Except.error.inj h)),
   lock_exits_iff_top_cell (shiftDown (select_tetromino 0 initial))
     (fun h => Halt.noConfusion (Except.error.inj h))⟩

theorem lockCell_in_field (s : State) (i : Fin SIZE) (hf : inField (s.temp i))
    (hy : (s.temp i).y ≠ 0) :
    ∃ s1, lockCell s i = .ok s1 ∧ s1.tetromino = s.tetromino ∧ s1.temp = s.temp ∧
      s1.canMove = s.canMove ∧ s1.score = s.score ∧ s1.level = s.level ∧
      s1.speed = s.speed ∧
      ∀ r c, s1.grid r c =
        if landsOn (s.temp i) r c then lockedUnit (s.tetromino i) (s.temp i) else s.grid r c := by
  obtain ⟨h1, h2, h3, h4⟩ := hf
  have hx : ((s.temp i).x - BORDER).tdiv 32 = ((s.temp i).x - 256) / 32 := by
    simp only [BORDER]
    exact Int.tdiv_eq_ediv (by omega) (by norm_num)
  have hyy : ((((s.temp i).y.tdiv 32) - ((M : Int) - 1)).natAbs : Int) = 23 - (s.temp i).y / 32 := by
    rw [Int.tdiv_eq_ediv h3 (by norm_num)]
    simp only [M]
    omega
  have hr := index_ok M (23 - (s.temp i).y / 32) (by simp only [M]; omega)
  have hc := index_ok N (((s.temp i).x - 256) / 32) (by simp only [N]; omega)
  unfold lockCell
  rw [if_neg hy]
  simp only [hx, hyy, hr, hc]
  refine ⟨_, rfl, rfl, rfl, rfl, rfl, rfl, rfl, ?_⟩
  intro r c
  simp only [Grid.set, landsOn, lockedUnit, Fin.ext_iff]
  apply if_congr _ rfl rfl
  omega

theorem lockFrom_in_field : ∀ (l : List (Fin SIZE)) (s : State),
    (∀ i ∈ l, inField (s.temp i) ∧ (s.temp i).y ≠ 0) →
    ∃ s1, lockFrom l s = .ok s1 ∧ s1.tetromino = s.tetromino ∧ s1.temp = s.temp ∧
      s1.canMove = s.canMove ∧ s1.score = s.score ∧ s1.level = s.level ∧
      s1.speed = s.speed ∧
      (∀ r c, (∀ i ∈ l, ¬ landsOn (s.temp i) r c) → s1.grid r c = s.grid r c) ∧
      (∀ r c l1 i l2, l = l1 ++ i :: l2 → landsOn (s.temp i) r c →
        (∀ j ∈ l2, ¬ landsOn (s.temp j) r c) →
        s1.grid r c = lockedUnit (s.tetromino i) (s.temp i))
  | [], s, _ =>
    ⟨s, rfl, rfl, rfl, rfl, rfl, rfl, rfl, fun _ _ _ => rfl,
      fun _ _ l1 i l2 h _ _ => by cases l1 <;> cases h⟩
  | i :: l, s, hl => by
    obtain ⟨hf, hy⟩ := hl i (List.mem_cons_self _ _)
    obtain ⟨s2, hs2, a1, a2, a3, a4, a5, a6, hgrid⟩ := lockCell_in_field s i hf hy
    obtain ⟨s1, hs1, b1, b2, b3, b4, b5, b6, hkeep, hlast⟩ := lockFrom_in_field l s2
      (by intro j hj; rw [a2]; exact hl j (List.mem_cons_of_mem _ hj))
    refine ⟨s1, ?_, b1.trans a1, b2.trans a2, b3.trans a3, b4.trans a4, b5.trans a5,
      b6.trans a6, ?_, ?_⟩
    · unfold lockFrom
      rw [hs2]
      exact hs1
    · intro r c hno
      rw [hkeep r c (by intro j hj; rw [a2]; exact hno j (List.mem_cons_of_mem _ hj)),
        hgrid r c, if_neg (hno i (List.mem_cons_self _ _))]
    · intro r c l1 k l2 hsplit hland hafter
      cases l1 with
      | nil =>
        simp only [List.nil_append, List.cons.injEq] at hsplit
        obtain ⟨rfl, rfl⟩ := hsplit
        rw [hkeep r c (by intro j hj; rw [a2]; exact hafter j hj), hgrid r c, if_pos hland]
      | cons a l1 =>
        simp only [List.cons_append, List.cons.injEq] at hsplit
        obtain ⟨rfl, rfl⟩ := hsplit
        have := hlast r c l1 k l2 rfl (by rw [a2]; exact hland)
          (by intro j hj; rw [a2]; exact hafter j hj)
        rw [this, a1, a2]

/-- C7: for every grid and every piece whose 4 pre-collision cells `temp[i]` lie inside the
playfield with `y != 0`, `lock` returns; each cell maps to a grid cell
`grid[23 - y/32][(x - 256)/32]`, which afterwards is occupied and holds the colour and the
pixel rectangle of the piece cell written there (the last one in index order, should two
cells map to the same grid cell); every other grid cell, the score, the level and the
speed are unchanged. -/
theorem lock_writes_the_cells (s : State)
    (h : ∀ i, inField (s.temp i) ∧ (s.temp i).y ≠ 0) :
    ∃ s1, lock s = .ok s1 ∧
      (∀ i, ∃ r c, landsOn (s.temp i) r c) ∧
      (∀ i r c, landsOn (s.temp i) r c → (s1.grid r c).hasRect = true) ∧
      (∀ i r c, landsOn (s.temp i) r c → (∀ j, i < j → ¬ landsOn (s.temp j) r c) →
        s1.grid r c = lockedUnit (s.tetromino i) (s.temp i)) ∧
      (∀ r c, (∀ i, ¬ landsOn (s.temp i) r c) → s1.grid r c = s.grid r c) ∧
      s1.score = s.score ∧ s1.level = s.level ∧ s1.speed = s.speed := by
  obtain ⟨s1, hs1, _, _, _, hsc, hlv, hsp, hkeep, hlast⟩ :=
    lockFrom_in_field (indices SIZE) s (fun i _ => h i)
  have hlastw : ∀ i r c, landsOn (s.temp i) r c → (∀ j, i < j → ¬ landsOn (s.temp j) r c) →
      s1.grid r c = lockedUnit (s.tetromino i) (s.temp i) := by
    intro i r c hland hafter
    fin_cases i
    · refine hlast r c [] 0 [1, 2, 3] rfl hland ?_
      intro j hj
      apply hafter
      simp only [List.mem_cons, List.mem_singleton, List.not_mem_nil, or_false] at hj
      rcases hj with rfl | rfl | rfl <;> decide
    · refine hlast r c [0] 1 [2, 3] rfl hland ?_
      intro j hj
      apply hafter
      simp only [List.mem_cons, List.mem_singleton, List.not_mem_nil, or_false] at hj
      rcases hj with rfl | rfl <;> decide
    · refine hlast r c [0, 1] 2 [3] rfl hland ?_
      intro j hj
      apply hafter
      simp only [List.mem_cons, List.mem_singleton, List.not_mem_nil, or_false] at hj
      rcases hj with rfl
      decide
    · exact hlast r c [0, 1, 2] 3 [] rfl hland (by intro j hj; cases hj)
  refine ⟨s1, hs1, ?_, ?_, hlastw, ?_, hsc, hlv, hsp⟩
  · intro i
    obtain ⟨h1, h2, h3, h4⟩ := (h i).1
    have hM : M = 24 := rfl
    have hN : N = 16 := rfl
    refine ⟨⟨(23 - (s.temp i).y / 32).toNat, by omega⟩,
      ⟨(((s.temp i).x - 256) / 32).toNat, by omega⟩, ?_⟩
    simp only [landsOn]
    omega
  · intro i r c hland
    have hall : ∀ j : Fin SIZE, j = 0 ∨ j = 1 ∨ j = 2 ∨ j = 3 := by decide
    by_cases h3 : landsOn (s.temp 3) r c
    · rw [hlastw 3 r c h3 (by
        intro j hj
        rcases hall j with rfl | rfl | rfl | rfl <;> first | exact absurd hj (by decide))]
      rfl
    · by_cases h2 : landsOn (s.temp 2) r c
      · rw [hlastw 2 r c h2 (by
          intro j hj
          rcases hall j with rfl | rfl | rfl | rfl <;>
            first | exact absurd hj (by decide) | exact h3)]
        rfl
      · by_cases h1 : landsOn (s.temp 1) r c
        · rw [hlastw 1 r c h1 (by
            intro j hj
            rcases hall j with rfl | rfl | rfl | rfl <;>
              first | exact absurd hj (by decide) | exact h3 | exact h2)]
          rfl
        · have h0 : landsOn (s.temp 0) r c := by
            rcases hall i with rfl | rfl | rfl | rfl
            · exact hland
            · exact absurd hland h1
            · exact absurd hland h2
            · exact absurd hland h3
          rw [hlastw 0 r c h0 (by
            intro j hj
            rcases hall j with rfl | rfl | rfl | rfl <;>
              first | exact absurd hj (by decide) | exact h3 | exact h2 | exact h1)]
          rfl
  · intro r c hno
    exact hkeep r c (fun i _ => hno i)

/-- Witness of C7: the I piece lying on the floor of the empty grid. -/
theorem lock_writes_the_cells_witness :
    (∀ i, inField (lyingOnFloor.temp i) ∧ (lyingOnFloor.temp i).y ≠ 0) ∧
    ∃ s1, lock lyingOnFloor = .ok s1 ∧
      (∀ i, ∃ r c, landsOn (lyingOnFloor.temp i) r c) ∧
      (∀ i r c, landsOn (lyingOnFloor.temp i) r c → (s1.grid r c).hasRect = true) ∧
      (∀ i r c, landsOn (lyingOnFloor.temp i) r c →
        (∀ j, i < j → ¬ landsOn (lyingOnFloor.temp j) r c) →
        s1.grid r c = lockedUnit (lyingOnFloor.tetromino i) (lyingOnFloor.temp i)) ∧
      (∀ r c, (∀ i, ¬ landsOn (lyingOnFloor.temp i) r c) →
        s1.grid r c = lyingOnFloor.grid r c) ∧
      s1.score = lyingOnFloor.score ∧ s1.level = lyingOnFloor.level ∧
      s1.speed = lyingOnFloor.speed :=
  ⟨by decide, lock_writes_the_cells lyingOnFloor (by decide)⟩

/-! ## `move_down` -/

theorem hitFrom_false : ∀ (g : Grid) (t : Tetromino) (l : List (Fin SIZE)),
    hitFrom g t l = .ok false → ∀ i ∈ l, hitCell g (t i) = .ok false
  | _, _, [], _, _, hi => by cases hi
  | g, t, j :: l, h, i, hi => by
    unfold hitFrom at h
    cases hc : hitCell g (t j) with
    | error e => rw [hc] at h; cases h
    | ok b =>
      cases b with
      | true => rw [hc] at h; cases h
      | false =>
        rw [hc] at h
        rcases List.mem_cons.mp hi with rfl | hi
        · exact hc
        · exact hitFrom_false g t l h i hi

/-- A cell on which `hit` does not fire lies inside the playfield columns, above the floor
and not more than one cell above the top edge. -/
theorem hitCell_false_bounds (g : Grid) (u : unit) (h : hitCell g u = .ok false) :
    256 ≤ u.rect.x ∧ u.rect.x < 768 ∧ -32 < u.rect.y ∧ u.rect.y < 768 := by
  unfold hitCell at h
  by_cases ho : u.rect.x < BORDER ∨ u.rect.x ≥ WIN_W ∨ u.rect.y ≥ WIN_H
  · rw [if_pos ho] at h
    cases h
  · rw [if_neg ho] at h
    simp only [BORDER, WIN_W, WIN_H] at ho
    refine ⟨by omega, by omega, ?_, by omega⟩
    by_contra hy
    have hidx : index M (((u.rect.y.tdiv 32) - ((M : Int) - 1)).natAbs : Int) =
        .error .outOfBounds := by
      apply index_error
      have h1 : u.rect.y.tdiv 32 ≤ -1 := by
        have : u.rect.y.tdiv 32 = -((-u.rect.y).tdiv 32) := by
          rw [Int.neg_tdiv, Int.neg_neg]
        rw [this, Int.tdiv_eq_ediv (by omega) (by norm_num)]
        omega
      simp only [M]
      omega
    simp only [hidx] at h
    cases h

/-- The loop of `hit` returns as soon as every cell is at most one cell above the top edge. -/
theorem hitCell_defined (g : Grid) (u : unit) (hy : -32 < u.rect.y) :
    ∃ b, hitCell g u = .ok b := by
  unfold hitCell
  by_cases ho : u.rect.x < BORDER ∨ u.rect.x ≥ WIN_W ∨ u.rect.y ≥ WIN_H
  · rw [if_pos ho]
    exact ⟨true, rfl⟩
  · rw [if_neg ho]
    simp only [BORDER, WIN_W, WIN_H] at ho
    have hM : ((M : Nat) : Int) = 24 := rfl
    have hN : ((N : Nat) : Int) = 16 := rfl
    have hx : 0 ≤ (u.rect.x - BORDER).tdiv 32 ∧
        (u.rect.x - BORDER).tdiv 32 < ((N : Nat) : Int) := by
      simp only [BORDER]
      rw [Int.tdiv_eq_ediv (by omega) (by norm_num)]
      omega
    have hyy : 0 ≤ (((u.rect.y.tdiv 32) - ((M : Int) - 1)).natAbs : Int) ∧
        (((u.rect.y.tdiv 32) - ((M : Int) - 1)).natAbs : Int) < ((M : Nat) : Int) := by
      by_cases h0 : 0 ≤ u.rect.y
      · rw [Int.tdiv_eq_ediv h0 (by norm_num)]
        omega
      · have : u.rect.y.tdiv 32 = -((-u.rect.y).tdiv 32) := by
          rw [Int.neg_tdiv, Int.neg_neg]
        rw [this, Int.tdiv_eq_ediv (by omega) (by norm_num)]
        omega
    have hr := index_ok M _ hyy
    have hc := index_ok N _ hx
    simp only [hr, hc]
    exact ⟨_, rfl⟩

theorem hitFrom_defined (g : Grid) (t : Tetromino) (hy : ∀ i, -32 < (t i).rect.y) :
    ∀ l : List (Fin SIZE), ∃ b, hitFrom g t l = .ok b
  | [] => ⟨false, rfl⟩
  | i :: l => by
    obtain ⟨b, hb⟩ := hitCell_defined g (t i) (hy i)
    unfold hitFrom
    rw [hb]
    cases b with
    | true => exact ⟨true, rfl⟩
    | false => exact hitFrom_defined g t hy l

/-- From a position that does not collide, `move_left` and `move_right` return and the
piece still does not collide. -/
theorem move_left_right_keep_clear (s : State) (h : hit s.grid s.tetromino = .ok false) :
    (∃ s1, move_left s = .ok s1 ∧ hit s1.grid s1.tetromino = .ok false) ∧
    (∃ s1, move_right s = .ok s1 ∧ hit s1.grid s1.tetromino = .ok false) := by
  have hy : ∀ dx, ∀ i, -32 < (translate dx 0 s.tetromino i).rect.y := by
    intro dx i
    have := (hitCell_false_bounds s.grid (s.tetromino i)
      (hitFrom_false s.grid s.tetromino _ h i (mem_indices SIZE i))).2.2.1
    simpa [translate, SDL_Rect.moved] using this
  have hspec := move_left_right_cases s
  constructor
  · obtain ⟨b, hb⟩ := hitFrom_defined s.grid (translate (-32) 0 s.tetromino) (hy _)
      (indices SIZE)
    cases b with
    | false =>
      obtain ⟨s1, hs1, ht, hg, _⟩ := hspec.1 hb
      exact ⟨s1, hs1, by rw [ht, hg]; exact hb⟩
    | true =>
      obtain ⟨s1, hs1, ht, hg, _⟩ := hspec.2.1 hb
      exact ⟨s1, hs1, by rw [ht, hg]; exact h⟩
  · obtain ⟨b, hb⟩ := hitFrom_defined s.grid (translate 32 0 s.tetromino) (hy _)
      (indices SIZE)
    cases b with
    | false =>
      obtain ⟨s1, hs1, ht, hg, _⟩ := hspec.2.2.1 hb
      exact ⟨s1, hs1, by rw [ht, hg]; exact hb⟩
    | true =>
      obtain ⟨s1, hs1, ht, hg, _⟩ := hspec.2.2.2 hb
      exact ⟨s1, hs1, by rw [ht, hg]; exact h⟩

/-! ## When `lock` stays inside the grid array -/

theorem lockCell_defined (s : State) (i : Fin SIZE)
    (h : 256 ≤ (s.temp i).x ∧ (s.temp i).x < 768 ∧ -32 < (s.temp i).y ∧ (s.temp i).y < 768) :
    lockCell s i ≠ .error .outOfBounds := by
  obtain ⟨h1, h2, h3, h4⟩ := h
  unfold lockCell
  by_cases hy : (s.temp i).y = 0
  · rw [if_pos hy]
    exact fun h => Halt.noConfusion (Except.error.inj h)
  · rw [if_neg hy]
    have hM : ((M : Nat) : Int) = 24 := rfl
    have hN : ((N : Nat) : Int) = 16 := rfl
    have hx : 0 ≤ ((s.temp i).x - BORDER).tdiv 32 ∧
        ((s.temp i).x - BORDER).tdiv 32 < ((N : Nat) : Int) := by
      simp only [BORDER]
      rw [Int.tdiv_eq_ediv (by omega) (by norm_num)]
      omega
    have hyy : 0 ≤ ((((s.temp i).y.tdiv 32) - ((M : Int) - 1)).natAbs : Int) ∧
        ((((s.temp i).y.tdiv 32) - ((M : Int) - 1)).natAbs : Int) < ((M : Nat) : Int) := by
      by_cases h0 : 0 ≤ (s.temp i).y
      · rw [Int.tdiv_eq_ediv h0 (by norm_num)]
        omega
      · have : (s.temp i).y.tdiv 32 = -((-(s.temp i).y).tdiv 32) := by
          rw [Int.neg_tdiv, Int.neg_neg]
        rw [this, Int.tdiv_eq_ediv (by omega) (by norm_num)]
        omega
    have hr := index_ok M _ hyy
    have hc := index_ok N _ hx
    simp only [hr, hc]
    exact fun h => Except.noConfusion h

/-- The function `lock` never leaves the grid array when the snapshot cells lie in the
playfield columns, above the floor and less than one cell above the top edge; this is the
case for the snapshot of every piece on which `hit` returned `false`
(`hitCell_false_bounds`). -/
theorem lock_defined (s : State)
    (h : ∀ i, 256 ≤ (s.temp i).x ∧ (s.temp i).x < 768 ∧ -32 < (s.temp i).y ∧
      (s.temp i).y < 768) :
    lock s ≠ .error .outOfBounds := by
  have key : ∀ (l : List (Fin SIZE)) (s1 : State), s1.temp = s.temp →
      lockFrom l s1 ≠ .error .outOfBounds := by
    intro l
    induction l with
    | nil => intro s1 _ hc; cases hc
    | cons i l ih =>
      intro s1 ht hc
      unfold lockFrom at hc
      cases hcell : lockCell s1 i with
      | error e =>
        rw [hcell] at hc
        cases hc
        exact lockCell_defined s1 i (by rw [ht]; exact h i) hcell
      | ok s2 =>
        rw [hcell] at hc
        exact ih s2 ((lockCell_ok_frame s1 s2 i hcell).2.2.1.trans ht) hc
  exact key (indices SIZE) s rfl

/-! ## `gravity`, for every admissible argument -/

/-- C17: for every grid and every `k` with `1 <= k <= 24`, `gravity(k)` returns; it leaves
rows `0 .. k-2` unchanged, makes each row `r - 1` for `r` in `k .. 23` equal to the old row
`r` with every cell's `rect.y` increased by 32, and leaves the top row (index 23)
unchanged: for `k <= 23` the old top row is thereby duplicated (lowered) into row 22 and
is not cleared. -/
theorem gravity_spec (k : Int) (g : Grid) (h1 : 1 ≤ k) (h24 : k ≤ 24) :
    ∃ g1, gravity k g = .ok g1 ∧
      (∀ r : Fin M, (r.val : Int) + 2 ≤ k → g1 r = g r) ∧
      (∀ (r1 r : Fin M) (c : Fin N), r1.val + 1 = r.val → k ≤ (r.val : Int) →
        g1 r1 c = lowered (g r c)) ∧
      g1 topRow = g topRow ∧
      (k ≤ 23 → ∀ c, g1 ⟨22, by decide⟩ c = lowered (g topRow c)) := by
  have hM : M = 24 := rfl
  obtain ⟨g1, hg1, hlow, hkeep, htop⟩ := gravity_succ_spec (k - 1).toNat g (by omega)
  have hk : (((k - 1).toNat : Nat) : Int) + 1 = k := by omega
  rw [hk] at hg1
  refine ⟨g1, hg1, ?_, ?_, htop, ?_⟩
  · intro r hr
    exact hkeep r (by omega)
  · intro r1 r c hr hk2
    exact hlow r1 r c hr.symm (by omega)
  · intro hk3 c
    exact hlow ⟨22, by decide⟩ topRow c rfl (by simp only; omega)

/-- Witness of C17: `gravity(1)` on the grid with rows 0 and 1 full. -/
theorem gravity_spec_witness :
    ((1 : Int) ≤ 1 ∧ (1 : Int) ≤ 24) ∧
    ∃ g1, gravity 1 twoRowsNearCap.grid = .ok g1 ∧
      (∀ r : Fin M, (r.val : Int) + 2 ≤ 1 → g1 r = twoRowsNearCap.grid r) ∧
      (∀ (r1 r : Fin M) (c : Fin N), r1.val + 1 = r.val → (1 : Int) ≤ (r.val : Int) →
        g1 r1 c = lowered (twoRowsNearCap.grid r c)) ∧
      g1 topRow = twoRowsNearCap.grid topRow ∧
      ((1 : Int) ≤ 23 → ∀ c, g1 ⟨22, by decide⟩ c = lowered (twoRowsNearCap.grid topRow c)) :=
  ⟨⟨by decide, by decide⟩, gravity_spec 1 twoRowsNearCap.grid (by decide) (by decide)⟩

/-! ## `rotate` when the rotated position is free -/

theorem turned_tetromino (s : State) (i : Fin SIZE) :
    (turned s).tetromino i =
      { s.tetromino i with
        rect := { (s.tetromino i).rect with
                  x := (s.tetromino 1).rect.x - ((s.tetromino i).rect.y - (s.tetromino 1).rect.y)
                  y := (s.tetromino 1).rect.y + ((s.tetromino i).rect.x - (s.tetromino 1).rect.x) } } :=
  turn_tetromino _ s i

theorem turned_frame (s : State) :
    (turned s).grid = s.grid ∧ (turned s).temp = s.temp ∧ (turned s).canMove = s.canMove ∧
    (turned s).score = s.score ∧ (turned s).level = s.level ∧ (turned s).speed = s.speed :=
  turn_frame _ s

/-- When the rotated position does not collide, `rotate` returns that position. -/
theorem rotate_of_clear (s : State) (h : hit s.grid (turned s).tetromino = .ok false) :
    rotate s = .ok (turned s) := by
  unfold rotate
  have hg : (turn (s.tetromino 1).rect s).grid = s.grid := (turn_frame _ s).1
  simp only [hg]
  have h2 : hit s.grid (turn (s.tetromino 1).rect s).tetromino = .ok false := h
  rw [h2]
  rfl

/-- Four turns in a row give back the tetromino. -/
theorem turned_four (s : State) :
    (turned (turned (turned (turned s)))).tetromino = s.tetromino := by
  funext i
  have e1 : ∀ (s : State) (j : Fin SIZE), (turned s).tetromino j = _ := turned_tetromino
  have p1 : (turned s).tetromino 1 = s.tetromino 1 := by
    rw [e1]
    cases h : s.tetromino 1 with
    | mk r g b hr rc =>
      cases rc
      simp
  have p2 : (turned (turned s)).tetromino 1 = s.tetromino 1 := by
    rw [← p1]
    have := e1 (turned s) 1
    rw [this]
    cases h : (turned s).tetromino 1 with
    | mk r g b hr rc =>
      cases rc
      simp
  have p3 : (turned (turned (turned s))).tetromino 1 = s.tetromino 1 := by
    rw [← p2]
    have := e1 (turned (turned s)) 1
    rw [this]
    cases h : (turned (turned s)).tetromino 1 with
    | mk r g b hr rc =>
      cases rc
      simp
  rw [e1 (turned (turned (turned s))) i, p3, e1 (turned (turned s)) i, p2, e1 (turned s) i, p1,
    e1 s i]
  cases h : s.tetromino i with
  | mk r g b hr rc =>
    cases rc
    simp only [unit.mk.injEq, SDL_Rect.mk.injEq, true_and, and_true]
    constructor <;> ring

/-- C13: for every piece whose rotated position does not collide, `rotate` returns, keeps
cell index 1 (the pivot) fixed and maps each cell with offset `(dx, dy)` from the pivot to
the cell with offset `(-dy, dx)` from the pivot (sizes untouched); the grid, the score
and the level are unchanged. -/
theorem rotate_about_pivot (s : State) (h : hit s.grid (turned s).tetromino = .ok false) :
    ∃ s1, rotate s = .ok s1 ∧
      (s1.tetromino 1).rect = (s.tetromino 1).rect ∧
      (∀ i, (s1.tetromino i).rect.x - (s1.tetromino 1).rect.x =
              -((s.tetromino i).rect.y - (s.tetromino 1).rect.y) ∧
            (s1.tetromino i).rect.y - (s1.tetromino 1).rect.y =
              (s.tetromino i).rect.x - (s.tetromino 1).rect.x ∧
            (s1.tetromino i).rect.w = (s.tetromino i).rect.w ∧
            (s1.tetromino i).rect.h = (s.tetromino i).rect.h) ∧
      s1.grid = s.grid ∧ s1.score = s.score ∧ s1.level = s.level := by
  obtain ⟨hg, _, _, hsc, hlv, _⟩ := turned_frame s
  have hp : ((turned s).tetromino 1).rect = (s.tetromino 1).rect := by
    rw [turned_tetromino]
    cases hr : (s.tetromino 1).rect
    simp
  refine ⟨turned s, rotate_of_clear s h, hp, ?_, hg, hsc, hlv⟩
  intro i
  rw [hp, turned_tetromino]
  simp only
  refine ⟨by ring, by ring, trivial, trivial⟩

/-- Witness of C13: the I piece lying flat in the middle of the empty grid. -/
theorem rotate_about_pivot_witness :
    hit midField.grid (turned midField).tetromino = .ok false ∧
    ∃ s1, rotate midField = .ok s1 ∧
      (s1.tetromino 1).rect = (midField.tetromino 1).rect ∧
      (∀ i, (s1.tetromino i).rect.x - (s1.tetromino 1).rect.x =
              -((midField.tetromino i).rect.y - (midField.tetromino 1).rect.y) ∧
            (s1.tetromino i).rect.y - (s1.tetromino 1).rect.y =
              (midField.tetromino i).rect.x - (midField.tetromino 1).rect.x ∧
            (s1.tetromino i).rect.w = (midField.tetromino i).rect.w ∧
            (s1.tetromino i).rect.h = (midField.tetromino i).rect.h) ∧
      s1.grid = midField.grid ∧ s1.score = midField.score ∧ s1.level = midField.level :=
  ⟨rfl, rotate_about_pivot midField rfl⟩

/-- C12: for every piece and grid such that none of the four successive rotated positions
collides, applying `rotate` 4 times returns, and every one of the 4 cells is back at its
original `x` and `y` (the whole tetromino is as before). -/
theorem rotate_four_times (s : State)
    (h1 : hit s.grid (turned s).tetromino = .ok false)
    (h2 : hit s.grid (turned (turned s)).tetromino = .ok false)
    (h3 : hit s.grid (turned (turned (turned s))).tetromino = .ok false)
    (h4 : hit s.grid (turned (turned (turned (turned s)))).tetromino = .ok false) :
    ∃ s4, play [rotate, rotate, rotate, rotate] s = .ok s4 ∧
      (∀ i, (s4.tetromino i).rect.x = (s.tetromino i).rect.x ∧
            (s4.tetromino i).rect.y = (s.tetromino i).rect.y) ∧
      s4.tetromino = s.tetromino := by
  have g1 : (turned s).grid = s.grid := (turned_frame s).1
  have g2 : (turned (turned s)).grid = s.grid := (turned_frame _).1.trans g1
  have g3 : (turned (turned (turned s))).grid = s.grid := (turned_frame _).1.trans g2
  have r1 := rotate_of_clear s h1
  have r2 := rotate_of_clear (turned s) (by rw [g1]; exact h2)
  have r3 := rotate_of_clear (turned (turned s)) (by rw [g2]; exact h3)
  have r4 := rotate_of_clear (turned (turned (turned s))) (by rw [g3]; exact h4)
  refine ⟨turned (turned (turned (turned s))), ?_, ?_, turned_four s⟩
  · simp only [play, List.foldl, r1, r2, r3, r4]
  · intro i
    rw [turned_four s]
    exact ⟨rfl, rfl⟩

/-- Witness of C12: the I piece lying flat in the middle of the empty grid turns freely. -/
theorem rotate_four_times_witness :
    (hit midField.grid (turned midField).tetromino = .ok false ∧
     hit midField.grid (turned (turned midField)).tetromino = .ok false ∧
     hit midField.grid (turned (turned (turned midField))).tetromino = .ok false ∧
     hit midField.grid (turned (turned (turned (turned midField)))).tetromino = .ok false) ∧
    ∃ s4, play [rotate, rotate, rotate, rotate] midField = .ok s4 ∧
      (∀ i, (s4.tetromino i).rect.x = (midField.tetromino i).rect.x ∧
            (s4.tetromino i).rect.y = (midField.tetromino i).rect.y) ∧
      s4.tetromino = midField.tetromino :=
  ⟨⟨rfl, rfl, rfl, rfl⟩, rotate_four_times midField rfl rfl rfl rfl⟩

/-! ## Score, level and speed -/

/-- What one award does to the score, the level and the speed. -/
theorem awardLine_stats (s : State) (h0 : 0 ≤ s.score) :
    (awardLine s).score = s.score + 100 ∧
    (awardLine s).level =
      (if (s.score + 100) % 1000 = 0 ∧ s.level < 5 then s.level + 1 else s.level) ∧
    (awardLine s).speed =
      (if (s.score + 100) % 1000 = 0 ∧ s.level < 5 then s.speed - 184 else s.speed) := by
  have hm : (s.score + 100).tmod 1000 = (s.score + 100) % 1000 :=
    Int.tmod_eq_emod (by omega) (by norm_num)
  simp only [awardLine, hm, MAX_LEVEL]
  split_ifs <;> exact ⟨rfl, rfl, rfl⟩

/-- The invariant of the score tracker: the score is a non-negative multiple of 100, the
level is `min(5, 1 + score / 1000)` and the speed is the speed at level 1 (here `c`) less
184 per level gained. -/
theorem awardLine_invariant (c : Int) (s : State)
    (h : 0 ≤ s.score ∧ s.score % 100 = 0 ∧ s.level = min 5 (1 + s.score / 1000) ∧
      s.speed = c - 184 * (s.level - 1)) :
    0 ≤ (awardLine s).score ∧ (awardLine s).score % 100 = 0 ∧
    (awardLine s).level = min 5 (1 + (awardLine s).score / 1000) ∧
    (awardLine s).speed = c - 184 * ((awardLine s).level - 1) := by
  obtain ⟨h0, h100, hl, hs⟩ := h
  obtain ⟨a1, a2, a3⟩ := awardLine_stats s h0
  rw [a1, a2, a3]
  split_ifs with hc
  · refine ⟨by omega, by omega, ?_, by omega⟩
    omega
  · refine ⟨by omega, by omega, ?_, by omega⟩
    omega

theorem awards_invariant (c : Int) : ∀ (n : Nat) (s : State),
    (0 ≤ s.score ∧ s.score % 100 = 0 ∧ s.level = min 5 (1 + s.score / 1000) ∧
      s.speed = c - 184 * (s.level - 1)) →
    (awards n s).score = s.score + 100 * (n : Int) ∧
    (awards n s).level = min 5 (1 + (awards n s).score / 1000) ∧
    (awards n s).speed = c - 184 * ((awards n s).level - 1)
  | 0, s, h => by
    simp only [awards]
    exact ⟨by simp, h.2.2.1, h.2.2.2⟩
  | n + 1, s, h => by
    obtain ⟨b1, b2, b3⟩ := awards_invariant c n (awardLine s) (awardLine_invariant c s h)
    have a1 := (awardLine_stats s h.1).1
    simp only [awards]
    refine ⟨?_, b2, b3⟩
    rw [b1, a1]
    push_cast
    ring

theorem awardLine_congr (s t : State)
    (h : s.score = t.score ∧ s.level = t.level ∧ s.speed = t.speed) :
    (awardLine s).score = (awardLine t).score ∧ (awardLine s).level = (awardLine t).level ∧
    (awardLine s).speed = (awardLine t).speed := by
  obtain ⟨h1, h2, h3⟩ := h
  simp only [awardLine, h1, h2, h3]
  split_ifs <;> exact ⟨rfl, rfl, rfl⟩

theorem awards_congr : ∀ (n : Nat) (s t : State),
    (s.score = t.score ∧ s.level = t.level ∧ s.speed = t.speed) →
    (awards n s).score = (awards n t).score ∧ (awards n s).level = (awards n t).level ∧
    (awards n s).speed = (awards n t).speed
  | 0, _, _, h => h
  | n + 1, s, t, h => awards_congr n (awardLine s) (awardLine t) (awardLine_congr s t h)

/-- The score, the level and the speed after a pass of `check_lines` are those after some
number of line-clear awards: nothing else in `check_lines` touches them. -/
theorem check_lines_loop_awards : ∀ (fuel i : Nat) (s s1 : State),
    check_lines_loop fuel i s = .ok s1 →
    ∃ k, s1.score = (awards k s).score ∧ s1.level = (awards k s).level ∧
      s1.speed = (awards k s).speed
  | 0, i, s, _, h => by
    have h0 : check_lines_loop 0 i s = .error .outOfFuel := rfl
    rw [h0] at h
    cases h
  | fuel + 1, i, s, s1, h => by
    rw [check_lines_loop_succ] at h
    by_cases hi : i < M
    · rw [dif_pos hi] at h
      by_cases hfull : countRow s.grid ⟨i, hi⟩ = N
      · rw [if_pos hfull] at h
        cases hg : gravity ((i : Int) + 1) s.grid with
        | ok g =>
          rw [hg] at h
          obtain ⟨k, k1, k2, k3⟩ := check_lines_loop_awards fuel i _ s1 h
          obtain ⟨c1, c2, c3⟩ := awards_congr k (awardLine { s with grid := g }) (awardLine s)
            (awardLine_congr _ _ ⟨rfl, rfl, rfl⟩)
          exact ⟨k + 1, k1.trans c1, k2.trans c2, k3.trans c3⟩
        | error e =>
          rw [hg] at h
          cases h
      · rw [if_neg hfull] at h
        exact check_lines_loop_awards fuel (i + 1) s s1 h
    · rw [dif_neg hi] at h
      cases h
      exact ⟨0, rfl, rfl, rfl⟩

/-- C11: in every state reached from a state with score 0 and level 1 by line-clear awards,
`1 <= level <= 5` and `level = min(5, 1 + score / 1000)`: one level-up for each multiple
of 1000 that the score reaches, never beyond level 5. -/
theorem level_tracks_score (s : State) (n : Nat) (h0 : s.score = 0) (h1 : s.level = 1) :
    1 ≤ (awards n s).level ∧ (awards n s).level ≤ 5 ∧
    (awards n s).level = min 5 (1 + (awards n s).score / 1000) ∧
    (awards n s).score = 100 * (n : Int) := by
  obtain ⟨a1, a2, _⟩ := awards_invariant s.speed n s
    ⟨by omega, by omega, by rw [h0, h1]; rfl, by rw [h1]; ring⟩
  rw [h0] at a1
  refine ⟨?_, ?_, a2, by rw [a1]; ring⟩
  · rw [a2, a1]
    omega
  · rw [a2]
    omega

/-- Witness of C11: 57 awards from the initial state. -/
theorem level_tracks_score_witness :
    (initial.score = 0 ∧ initial.level = 1) ∧
    (1 ≤ (awards 57 initial).level ∧ (awards 57 initial).level ≤ 5 ∧
     (awards 57 initial).level = min 5 (1 + (awards 57 initial).score / 1000) ∧
     (awards 57 initial).score = 100 * ((57 : Nat) : Int)) :=
  ⟨⟨rfl, rfl⟩, level_tracks_score initial 57 rfl rfl⟩

/-- C18: in every state reached from a state with score 0, level 1 and speed 1000 by
line-clear awards, `speed = 1000 - 184 * (level - 1)`; hence the fall interval is never
below 264 ms and stays strictly positive. -/
theorem speed_tracks_level (s : State) (n : Nat) (h0 : s.score = 0) (h1 : s.level = 1)
    (h2 : s.speed = 1000) :
    (awards n s).speed = 1000 - 184 * ((awards n s).level - 1) ∧
    264 ≤ (awards n s).speed ∧ 0 < (awards n s).speed := by
  obtain ⟨a1, a2, a3⟩ := awards_invariant 1000 n s
    ⟨by omega, by omega, by rw [h0, h1]; rfl, by rw [h1, h2]; ring⟩
  refine ⟨a3, ?_, ?_⟩
  · rw [a3, a2]
    omega
  · rw [a3, a2]
    omega

/-- Witness of C18: 57 awards from the initial state. -/
theorem speed_tracks_level_witness :
    (initial.score = 0 ∧ initial.level = 1 ∧ initial.speed = 1000) ∧
    ((awards 57 initial).speed = 1000 - 184 * ((awards 57 initial).level - 1) ∧
     264 ≤ (awards 57 initial).speed ∧ 0 < (awards 57 initial).speed) :=
  ⟨⟨rfl, rfl, rfl⟩, speed_tracks_level initial 57 rfl rfl rfl⟩

/-! ## `hit` above the top edge -/

/-- C19 (the code at the failing input): the I piece rotated at its spawn row.  Cell 0 of the
rotated position is at `x = 480, y = -32`; it passes the boundary test of `hit`, its row
index is `|(-32) / 32 - 23| = 24`, outside the 24 rows of the grid, and `hit` (hence
`rotate`) indexes the grid out of range.  The same happens for each of the 7 shapes. -/
theorem hit_indexes_out_of_range :
    ((turned (select_tetromino 0 initial)).tetromino 0).rect = ⟨480, -32, 32, 32⟩ ∧
    ¬ ((480 : Int) < BORDER ∨ (480 : Int) ≥ WIN_W ∨ (-32 : Int) ≥ WIN_H) ∧
    (((-32 : Int).tdiv 32 - ((M : Int) - 1)).natAbs : Int) = 24 ∧
    hit (select_tetromino 0 initial).grid (turned (select_tetromino 0 initial)).tetromino =
      .error .outOfBounds ∧
    (∀ choice, choice < 7 →
      rotate (select_tetromino choice initial) = .error .outOfBounds) := by
  refine ⟨rfl, by decide, by decide, rfl, ?_⟩
  intro choice h
  interval_cases choice <;> rfl

/-! ## `select_tetromino` -/

theorem select_tetromino_cells (choice : Nat) (h : choice < 7) (s : State) (i : Fin SIZE) :
    ((select_tetromino choice s).tetromino i).rect =
      cellRect ((shapeOffsets choice).getD i.val (0, 0)) ∧
    (((select_tetromino choice s).tetromino i).red,
     ((select_tetromino choice s).tetromino i).green,
     ((select_tetromino choice s).tetromino i).blue) = shapeColour choice := by
  interval_cases choice <;> fin_cases i <;> exact ⟨rfl, rfl⟩

theorem occupied_of_empty (g : Grid) (hg : emptyGrid g) (row col : Int) :
    occupied g row col = false := by
  unfold occupied
  split
  · exact hg _ _
  · rfl

theorem cellRect_table :
    ∀ choice, choice < 7 → ∀ i : Fin SIZE,
      inField (cellRect ((shapeOffsets choice).getD i.val (0, 0))) ∧
      (0 ≤ ((cellRect ((shapeOffsets choice).getD i.val (0, 0))).x - 256) / 32 ∧
       ((cellRect ((shapeOffsets choice).getD i.val (0, 0))).x - 256) / 32 ≤ 15 ∧
       0 ≤ (cellRect ((shapeOffsets choice).getD i.val (0, 0))).y / 32 ∧
       (cellRect ((shapeOffsets choice).getD i.val (0, 0))).y / 32 ≤ 23) ∧
      ∀ j : Fin SIZE, i ≠ j →
        cellRect ((shapeOffsets choice).getD i.val (0, 0)) ≠
          cellRect ((shapeOffsets choice).getD j.val (0, 0)) := by
  decide

/-- C15: for each of the 7 shape choices (0..6 = I, J, L, O, S, T, Z) the spawned piece has
the colour of the shape table, its 4 cells follow the table's offset pattern from the base
cell in column 6, row 0 and are pairwise distinct, and all 4 cells lie inside the grid
(columns 0..15, rows 0..23), so that `hit` is false on every empty grid. -/
theorem select_tetromino_spec (choice : Nat) (h : choice < 7) (s : State) :
    (∀ i, (((select_tetromino choice s).tetromino i).red,
           ((select_tetromino choice s).tetromino i).green,
           ((select_tetromino choice s).tetromino i).blue) = shapeColour choice) ∧
    (∀ i, ((select_tetromino choice s).tetromino i).rect =
          cellRect ((shapeOffsets choice).getD i.val (0, 0))) ∧
    (∀ i j, i ≠ j → ((select_tetromino choice s).tetromino i).rect ≠
          ((select_tetromino choice s).tetromino j).rect) ∧
    (∀ i, 0 ≤ (((select_tetromino choice s).tetromino i).rect.x - 256) / 32 ∧
          (((select_tetromino choice s).tetromino i).rect.x - 256) / 32 ≤ 15 ∧
          0 ≤ ((select_tetromino choice s).tetromino i).rect.y / 32 ∧
          ((select_tetromino choice s).tetromino i).rect.y / 32 ≤ 23) ∧
    (∀ g, emptyGrid g → hit g (select_tetromino choice s).tetromino = .ok false) := by
  have hc := fun i => select_tetromino_cells choice h s i
  refine ⟨fun i => (hc i).2, fun i => (hc i).1, ?_, ?_, ?_⟩
  · intro i j hij
    rw [(hc i).1, (hc j).1]
    exact (cellRect_table choice h i).2.2 j hij
  · intro i
    rw [(hc i).1]
    exact (cellRect_table choice h i).2.1
  · intro g hg
    have hcell : ∀ i, hitCell g ((select_tetromino choice s).tetromino i) = .ok false := by
      intro i
      have hin := (cellRect_table choice h i).1
      rw [← (hc i).1] at hin
      obtain ⟨h1, h2, h3, h4⟩ := hin
      rw [hitCell_of_nonneg g _ h3, occupied_of_empty g hg]
      have hout : ¬ outside ((select_tetromino choice s).tetromino i).rect := by
        unfold outside
        omega
      simp [hout]
    have := hitFrom_eq_any g (select_tetromino choice s).tetromino (fun _ => false) hcell
      (indices SIZE)
    unfold hit
    rw [this]
    simp

/-- Witness of C15: the T piece (choice 5). -/
theorem select_tetromino_spec_witness :
    (5 < 7) ∧
    ((∀ i, (((select_tetromino 5 initial).tetromino i).red,
           ((select_tetromino 5 initial).tetromino i).green,
           ((select_tetromino 5 initial).tetromino i).blue) = shapeColour 5) ∧
    (∀ i, ((select_tetromino 5 initial).tetromino i).rect =
          cellRect ((shapeOffsets 5).getD i.val (0, 0))) ∧
    (∀ i j, i ≠ j → ((select_tetromino 5 initial).tetromino i).rect ≠
          ((select_tetromino 5 initial).tetromino j).rect) ∧
    (∀ i, 0 ≤ (((select_tetromino 5 initial).tetromino i).rect.x - 256) / 32 ∧
          (((select_tetromino 5 initial).tetromino i).rect.x - 256) / 32 ≤ 15 ∧
          0 ≤ ((select_tetromino 5 initial).tetromino i).rect.y / 32 ∧
          ((select_tetromino 5 initial).tetromino i).rect.y / 32 ≤ 23) ∧
    (∀ g, emptyGrid g → hit g (select_tetromino 5 initial).tetromino = .ok false)) :=
  ⟨by decide, select_tetromino_spec 5 (by decide) initial⟩

/-! ## `rotate` on the O piece -/

/-- C14 (the claim as stated fails): the O piece in the middle of the empty grid turns
unobstructed, and the set of grid cells it covers after `rotate` differs from the set
covered before. -/
theorem rotate_O_changes_cells :
    hit midFieldO.grid (turned midFieldO).tetromino = .ok false ∧
    ∃ s1, rotate midFieldO = .ok s1 ∧
      coveredCells midFieldO.tetromino = {(13, 6), (13, 7), (12, 6), (12, 7)} ∧
      coveredCells s1.tetromino = {(14, 7), (13, 7), (14, 6), (13, 6)} ∧
      coveredCells s1.tetromino ≠ coveredCells midFieldO.tetromino :=
  ⟨rfl, _, rfl, by decide, by decide, by decide⟩

theorem image_univ_eq_of_maps {α : Type} [DecidableEq α] (f g : Fin SIZE → α)
    (h1 : ∀ i, ∃ j, g i = f j) (h2 : ∀ i, ∃ j, f i = g j) :
    Finset.univ.image f = Finset.univ.image g := by
  ext x
  simp only [Finset.mem_image, Finset.mem_univ, true_and]
  constructor
  · rintro ⟨i, rfl⟩
    obtain ⟨j, hj⟩ := h2 i
    exact ⟨j, hj.symm⟩
  · rintro ⟨i, rfl⟩
    obtain ⟨j, hj⟩ := h1 i
    exact ⟨j, hj.symm⟩

/-- The rectangles of the spawned O piece translated by `(a, b)`. -/
theorem translated_O_rects (s0 : State) (a b : Int) :
    (translate a b (select_tetromino 3 s0).tetromino 0).rect = ⟨448 + a, 0 + b, 32, 32⟩ ∧
    (translate a b (select_tetromino 3 s0).tetromino 1).rect = ⟨480 + a, 0 + b, 32, 32⟩ ∧
    (translate a b (select_tetromino 3 s0).tetromino 2).rect = ⟨448 + a, 32 + b, 32, 32⟩ ∧
    (translate a b (select_tetromino 3 s0).tetromino 3).rect = ⟨480 + a, 32 + b, 32, 32⟩ :=
  ⟨rfl, rfl, rfl, rfl⟩

/-- C14 (amended): for the O piece as produced by `select_tetromino`, translated to any
position where the rotated position does not collide, `rotate` returns and moves the 2x2
block one row up: the set of grid cells covered after `rotate` is the set covered before
with every row index raised by one (towards the top), which is a different set. -/
theorem rotate_O_moves_up (s s0 : State) (a b : Int)
    (ht : s.tetromino = translate a b (select_tetromino 3 s0).tetromino)
    (h : hit s.grid (turned s).tetromino = .ok false) :
    ∃ s1, rotate s = .ok s1 ∧
      coveredCells s1.tetromino =
        (coveredCells s.tetromino).image (fun p => (p.1 + 1, p.2)) ∧
      coveredCells s1.tetromino ≠ coveredCells s.tetromino := by
  obtain ⟨q0, q1, q2, q3⟩ := translated_O_rects s0 a b
  have r0 : (s.tetromino 0).rect = ⟨448 + a, 0 + b, 32, 32⟩ := by rw [ht]; exact q0
  have r1 : (s.tetromino 1).rect = ⟨480 + a, 0 + b, 32, 32⟩ := by rw [ht]; exact q1
  have r2 : (s.tetromino 2).rect = ⟨448 + a, 32 + b, 32, 32⟩ := by rw [ht]; exact q2
  have r3 : (s.tetromino 3).rect = ⟨480 + a, 32 + b, 32, 32⟩ := by rw [ht]; exact q3
  have t0 : ((turned s).tetromino 0).rect =
      ⟨480 + a - (0 + b - (0 + b)), 0 + b + (448 + a - (480 + a)), 32, 32⟩ := by
    rw [turned_tetromino, r0, r1]
  have t1 : ((turned s).tetromino 1).rect =
      ⟨480 + a - (0 + b - (0 + b)), 0 + b + (480 + a - (480 + a)), 32, 32⟩ := by
    rw [turned_tetromino, r1]
  have t2 : ((turned s).tetromino 2).rect =
      ⟨480 + a - (32 + b - (0 + b)), 0 + b + (448 + a - (480 + a)), 32, 32⟩ := by
    rw [turned_tetromino, r2, r1]
  have t3 : ((turned s).tetromino 3).rect =
      ⟨480 + a - (32 + b - (0 + b)), 0 + b + (480 + a - (480 + a)), 32, 32⟩ := by
    rw [turned_tetromino, r3, r1]
  have hall : ∀ j : Fin SIZE, j = 0 ∨ j = 1 ∨ j = 2 ∨ j = 3 := by decide
  refine ⟨turned s, rotate_of_clear s h, ?_, ?_⟩
  · unfold coveredCells
    rw [Finset.image_image]
    apply image_univ_eq_of_maps
    · intro i
      rcases hall i with rfl | rfl | rfl | rfl
      · refine ⟨2, ?_⟩
        simp only [Function.comp, r0, t2, Prod.mk.injEq]
        omega
      · refine ⟨0, ?_⟩
        simp only [Function.comp, r1, t0, Prod.mk.injEq]
        omega
      · refine ⟨3, ?_⟩
        simp only [Function.comp, r2, t3, Prod.mk.injEq]
        omega
      · refine ⟨1, ?_⟩
        simp only [Function.comp, r3, t1, Prod.mk.injEq]
        omega
    · intro i
      rcases hall i with rfl | rfl | rfl | rfl
      · refine ⟨1, ?_⟩
        simp only [Function.comp, r1, t0, Prod.mk.injEq]
        omega
      · refine ⟨3, ?_⟩
        simp only [Function.comp, r3, t1, Prod.mk.injEq]
        omega
      · refine ⟨0, ?_⟩
        simp only [Function.comp, r0, t2, Prod.mk.injEq]
        omega
      · refine ⟨2, ?_⟩
        simp only [Function.comp, r2, t3, Prod.mk.injEq]
        omega
  · intro heq
    have hmem : (23 - (s.tetromino 2).rect.y / 32, ((s.tetromino 2).rect.x - 256) / 32) ∈
        coveredCells s.tetromino :=
      Finset.mem_image.mpr ⟨2, Finset.mem_univ _, rfl⟩
    rw [← heq] at hmem
    obtain ⟨i, _, hi⟩ := Finset.mem_image.mp hmem
    rw [Prod.mk.injEq] at hi
    have hrow := hi.1
    rcases hall i with rfl | rfl | rfl | rfl
    · rw [t0, r2] at hrow
      simp only at hrow
      omega
    · rw [t1, r2] at hrow
      simp only at hrow
      omega
    · rw [t2, r2] at hrow
      simp only at hrow
      omega
    · rw [t3, r2] at hrow
      simp only at hrow
      omega

/-- Witness of C14 (amended): the O piece in the middle of the empty grid. -/
theorem rotate_O_moves_up_witness :
    (midFieldO.tetromino = translate 0 320 (select_tetromino 3 initial).tetromino ∧
     hit midFieldO.grid (turned midFieldO).tetromino = .ok false) ∧
    ∃ s1, rotate midFieldO = .ok s1 ∧
      coveredCells s1.tetromino =
        (coveredCells midFieldO.tetromino).image (fun p => (p.1 + 1, p.2)) ∧
      coveredCells s1.tetromino ≠ coveredCells midFieldO.tetromino :=
  ⟨⟨rfl, rfl⟩, rotate_O_moves_up midFieldO initial 0 320 rfl rfl⟩

/-! ## The top row stays empty -/

theorem check_lines_loop_top_row : ∀ (fuel i : Nat) (s s1 : State),
    check_lines_loop fuel i s = .ok s1 → s1.grid topRow = s.grid topRow
  | 0, i, s, _, h => by
    have h0 : check_lines_loop 0 i s = .error .outOfFuel := rfl
    rw [h0] at h
    cases h
  | fuel + 1, i, s, s1, h => by
    rw [check_lines_loop_succ] at h
    by_cases hi : i < M
    · rw [dif_pos hi] at h
      by_cases hfull : countRow s.grid ⟨i, hi⟩ = N
      · rw [if_pos hfull] at h
        obtain ⟨g1, hg1, _, _, htop⟩ := gravity_succ_spec i s.grid hi
        rw [hg1] at h
        have := check_lines_loop_top_row fuel i _ s1 h
        rw [this, (awardLine_frame _).1]
        exact htop
      · rw [if_neg hfull] at h
        exact check_lines_loop_top_row fuel (i + 1) s s1 h
    · rw [dif_neg hi] at h
      cases h
      rfl

theorem lock_keeps_top_row (s s1 : State)
    (hin : ∀ i, inField (s.temp i) ∧ aligned (s.temp i)) (h : lock s = .ok s1) :
    s1.grid topRow = s.grid topRow := by
  have hy := (lockFrom_ok_frame (indices SIZE) s s1 h).1
  obtain ⟨s2, hs2, _, _, _, _, _, _, hkeep, _⟩ := lockFrom_in_field (indices SIZE) s
    (fun i hi => ⟨(hin i).1, hy i hi⟩)
  have he : s1 = s2 := by
    have h2 : lock s = .ok s2 := hs2
    rw [h] at h2
    exact Except.ok.inj h2
  subst he
  funext c
  apply hkeep
  intro i hi hland
  obtain ⟨⟨_, _, h3, _⟩, _, h6⟩ := hin i
  have hne := hy i hi
  simp only [landsOn, topRow] at hland
  omega

/-- C20: in every state reached from an empty grid by `lock` calls that do not end the game
(piece cells inside the playfield, aligned to the 32-unit cell size) and by `check_lines`
passes, no cell of the top grid row (index 23, pixel `y = 0`) is occupied; so the top row
is never full, and the row that `gravity` duplicates after a clear is empty. -/
theorem top_row_stays_empty (s : State) (h : Stacked s) :
    (∀ c, (s.grid topRow c).hasRect = false) ∧ ¬ rowFull s.grid topRow := by
  have key : ∀ c, (s.grid topRow c).hasRect = false := by
    induction h with
    | start s h => exact fun c => h topRow c
    | locked s s1 t tmp _ hin hl ih =>
      intro c
      have := lock_keeps_top_row { s with tetromino := t, temp := tmp } s1 hin hl
      rw [this]
      exact ih c
    | checked s s1 fuel _ hc ih =>
      intro c
      rw [check_lines_loop_top_row fuel 0 s s1 hc]
      exact ih c
  refine ⟨key, ?_⟩
  intro hfull
  have h1 := hfull ⟨0, by decide⟩
  rw [key] at h1
  cases h1

theorem stacked_lockedOnFloor : Stacked lockedOnFloor :=
  Stacked.locked initial lockedOnFloor lyingOnFloor.tetromino lyingOnFloor.temp
    (Stacked.start initial (fun _ _ => rfl)) (by decide) rfl

/-- Witness of C20: the grid after the first I piece was locked on the floor. -/
theorem top_row_stays_empty_witness :
    Stacked lockedOnFloor ∧
    ((∀ c, (lockedOnFloor.grid topRow c).hasRect = false) ∧
     ¬ rowFull lockedOnFloor.grid topRow) :=
  ⟨stacked_lockedOnFloor, top_row_stays_empty lockedOnFloor stacked_lockedOnFloor⟩

/-! ## The rows after a pass of `check_lines` -/

theorem rows_eq_rowsSeg (g : Grid) : rows g = rowsSeg g 0 M := rfl

theorem rowN_of_lt (g : Grid) (r : Nat) (h : r < M) : rowN g r = g ⟨r, h⟩ := by
  unfold rowN
  rw [dif_pos h]

theorem rowsSeg_snoc (g : Grid) : ∀ (n i : Nat),
    rowsSeg g i (n + 1) = rowsSeg g i n ++ [rowN g (i + n)]
  | 0, i => by simp [rowsSeg]
  | n + 1, i => by
    have ih := rowsSeg_snoc g n (i + 1)
    have e : i + 1 + n = i + (n + 1) := by omega
    rw [e] at ih
    show rowN g i :: rowsSeg g (i + 1) (n + 1) = (rowN g i :: rowsSeg g (i + 1) n) ++ _
    rw [ih]
    rfl

theorem rowsSeg_shift (g g1 : Grid) : ∀ (n i : Nat),
    (∀ r, i ≤ r → r < i + n → rowN g1 r = rowLoweredBy 1 (rowN g (r + 1))) →
    rowsSeg g1 i n = (rowsSeg g (i + 1) n).map (rowLoweredBy 1)
  | 0, _, _ => rfl
  | n + 1, i, h => by
    show rowN g1 i :: rowsSeg g1 (i + 1) n =
      rowLoweredBy 1 (rowN g (i + 1)) :: (rowsSeg g (i + 1 + 1) n).map (rowLoweredBy 1)
    rw [h i (Nat.le_refl i) (by omega),
      rowsSeg_shift g g1 n (i + 1) (fun r h1 h2 => h r (by omega) (by omega))]

theorem lowered_eq_loweredBy (u : unit) : lowered u = loweredBy 1 u := by
  simp [lowered, loweredBy]

theorem loweredBy_zero (u : unit) : loweredBy 0 u = u := by
  cases u with
  | mk r g b hr rc =>
    cases rc
    simp [loweredBy]

theorem loweredBy_succ (k : Nat) (u : unit) : loweredBy k (loweredBy 1 u) = loweredBy (k + 1) u := by
  simp only [loweredBy, unit.mk.injEq, SDL_Rect.mk.injEq, true_and, and_true]
  push_cast
  ring

theorem rowLoweredBy_zero (row : Row) : rowLoweredBy 0 row = row := by
  funext c
  exact loweredBy_zero (row c)

theorem rowLoweredBy_succ (k : Nat) (row : Row) :
    rowLoweredBy k (rowLoweredBy 1 row) = rowLoweredBy (k + 1) row := by
  funext c
  exact loweredBy_succ k (row c)

theorem fullRow_lowered (row : Row) : fullRow (rowLoweredBy 1 row) ↔ fullRow row := by
  simp [fullRow, rowLoweredBy, loweredBy]

theorem fullCount_map_lowered (l : List Row) :
    fullCount (l.map (rowLoweredBy 1)) = fullCount l := by
  unfold fullCount
  rw [List.countP_map]
  apply List.countP_congr
  intro row _
  simp only [Function.comp, decide_eq_true_eq]
  exact fullRow_lowered row

theorem compacted_map_lowered : ∀ (l : List Row) (k : Nat),
    compacted (l.map (rowLoweredBy 1)) k = compacted l (k + 1)
  | [], _ => rfl
  | row :: rest, k => by
    simp only [List.map_cons, compacted, fullRow_lowered, rowLoweredBy_succ]
    rw [compacted_map_lowered rest k, compacted_map_lowered rest (k + 1)]

theorem compacted_snoc : ∀ (l : List Row) (k : Nat) (x : Row), ¬ fullRow x →
    compacted (l ++ [x]) k = compacted l k ++ [rowLoweredBy (k + fullCount l) x]
  | [], k, x, hx => by
    simp [compacted, hx, fullCount]
  | row :: rest, k, x, hx => by
    have e1 : compacted (row :: (rest ++ [x])) k =
        if fullRow row then compacted (rest ++ [x]) (k + 1)
        else rowLoweredBy k row :: compacted (rest ++ [x]) k := rfl
    have e2 : compacted (row :: rest) k =
        if fullRow row then compacted rest (k + 1)
        else rowLoweredBy k row :: compacted rest k := rfl
    rw [List.cons_append, e1, e2]
    by_cases hr : fullRow row
    · rw [if_pos hr, if_pos hr, compacted_snoc rest (k + 1) x hx]
      have : fullCount (row :: rest) = fullCount rest + 1 := by
        simp [fullCount, List.countP_cons, hr]
      rw [this]
      have e : k + 1 + fullCount rest = k + (fullCount rest + 1) := by omega
      rw [e]
    · rw [if_neg hr, if_neg hr, compacted_snoc rest k x hx]
      have : fullCount (row :: rest) = fullCount rest := by
        simp [fullCount, List.countP_cons, hr]
      rw [this]
      rfl

/-- Clearing a full first row: the rest lowered with the top row appended settles to the
same rows as the list with the full row in front. -/
theorem settled_after_clear (row top : Row) (rest : List Row) (hr : fullRow row)
    (htop : ¬ fullRow top) :
    compacted (rest.map (rowLoweredBy 1) ++ [top]) 0 ++
        topCopies top (fullCount (rest.map (rowLoweredBy 1) ++ [top])) =
      compacted (row :: rest) 0 ++ topCopies top (fullCount (row :: rest)) := by
  have e2 : compacted (row :: rest) 0 = compacted rest 1 := by
    show (if fullRow row then compacted rest (0 + 1) else _) = _
    rw [if_pos hr]
  have c1 : fullCount (row :: rest) = fullCount rest + 1 := by
    simp [fullCount, List.countP_cons, hr]
  have c2 : fullCount (rest.map (rowLoweredBy 1) ++ [top]) = fullCount rest := by
    have := fullCount_map_lowered rest
    unfold fullCount at this ⊢
    rw [List.countP_append, this]
    simp [List.countP_cons, htop]
  rw [compacted_snoc _ 0 top htop, compacted_map_lowered, fullCount_map_lowered, e2, c1, c2,
    List.append_assoc]
  simp only [Nat.zero_add]
  rfl

theorem settled_keep (row top : Row) (rest : List Row) (hr : ¬ fullRow row) :
    compacted (row :: rest) 0 ++ topCopies top (fullCount (row :: rest)) =
      row :: (compacted rest 0 ++ topCopies top (fullCount rest)) := by
  have e2 : compacted (row :: rest) 0 = row :: compacted rest 0 := by
    show (if fullRow row then _ else rowLoweredBy 0 row :: compacted rest 0) = _
    rw [if_neg hr, rowLoweredBy_zero]
  have c1 : fullCount (row :: rest) = fullCount rest := by
    simp [fullCount, List.countP_cons, hr]
  rw [e2, c1]
  rfl

theorem fullCount_rowsSeg (g : Grid) : ∀ (n i : Nat), i + n ≤ M →
    fullCount (rowsSeg g i n) = (List.range' i n).countP (fullAt g)
  | 0, _, _ => rfl
  | n + 1, i, h => by
    have ih := fullCount_rowsSeg g n (i + 1) (by omega)
    have hi : i < M := by omega
    show fullCount (rowN g i :: rowsSeg g (i + 1) n) = _
    rw [List.range'_succ, List.countP_cons, ← ih]
    unfold fullCount
    rw [List.countP_cons, rowN_of_lt g i hi, fullAt_of_lt g i hi]
    rfl

/-- The rows from `i` on after the loop of `check_lines` started at row `i`, on a grid whose
top row is not full: the rows that are not full, in order, each dropped by the number of
full rows before it, then one copy of the top row for each full row. -/
theorem check_lines_loop_rows : ∀ (fuel i : Nat) (s s1 : State), i ≤ M →
    ¬ rowFull s.grid topRow → check_lines_loop fuel i s = .ok s1 →
    (∀ r : Fin M, r.val < i → s1.grid r = s.grid r) ∧
    rowsSeg s1.grid i (M - i) =
      compacted (rowsSeg s.grid i (M - i)) 0 ++
        topCopies (s.grid topRow) (fullCount (rowsSeg s.grid i (M - i)))
  | 0, i, s, _, _, _, h => by
    have h0 : check_lines_loop 0 i s = .error .outOfFuel := rfl
    rw [h0] at h
    cases h
  | fuel + 1, i, s, s1, hi, htop, h => by
    have hM : M = 24 := rfl
    rw [check_lines_loop_succ] at h
    by_cases hlt : i < M
    · rw [dif_pos hlt] at h
      have hseg : ∀ g : Grid, rowsSeg g i (M - i) = rowN g i :: rowsSeg g (i + 1) (M - (i + 1)) := by
        intro g
        have e : M - i = (M - (i + 1)) + 1 := by omega
        rw [e]
        rfl
      by_cases hfull : countRow s.grid ⟨i, hlt⟩ = N
      · rw [if_pos hfull] at h
        have hrow : rowFull s.grid ⟨i, hlt⟩ := (countRow_eq_iff _ _).mp hfull
        have hi23 : i < 23 := by
          by_contra hc
          have e : (⟨i, hlt⟩ : Fin M) = topRow := Fin.ext (by simp only [topRow]; omega)
          rw [e] at hrow
          exact htop hrow
        obtain ⟨g1, hg1, hlow, hkeep, htop1⟩ := gravity_succ_spec i s.grid hlt
        rw [hg1] at h
        have hag := (awardLine_frame { s with grid := g1 }).1
        have htop2 : ¬ rowFull (awardLine { s with grid := g1 }).grid topRow := by
          rw [hag]
          intro hf
          apply htop
          intro c
          have := hf c
          rw [show ({ s with grid := g1 } : State).grid = g1 from rfl, htop1] at this
          exact this
        obtain ⟨ihrows, ihseg⟩ :=
          check_lines_loop_rows fuel i (awardLine { s with grid := g1 }) s1 hi htop2 h
        rw [hag] at ihrows ihseg
        have hg1eq : ({ s with grid := g1 } : State).grid = g1 := rfl
        rw [hg1eq] at ihrows ihseg
        refine ⟨fun r hr => (ihrows r hr).trans (hkeep r hr), ?_⟩
        have e1 : M - i = (23 - i) + 1 := by omega
        have e2 : M - (i + 1) = 23 - i := by omega
        have hshift : rowsSeg g1 i (23 - i) =
            (rowsSeg s.grid (i + 1) (23 - i)).map (rowLoweredBy 1) := by
          apply rowsSeg_shift
          intro r hr1 hr2
          rw [rowN_of_lt g1 r (by omega), rowN_of_lt s.grid (r + 1) (by omega)]
          funext c
          rw [hlow ⟨r, by omega⟩ ⟨r + 1, by omega⟩ c rfl hr1]
          exact lowered_eq_loweredBy _
        have hsplit : rowsSeg g1 i (M - i) =
            (rowsSeg s.grid (i + 1) (23 - i)).map (rowLoweredBy 1) ++ [s.grid topRow] := by
          rw [e1, rowsSeg_snoc, hshift]
          have e3 : i + (23 - i) = 23 := by omega
          rw [e3, rowN_of_lt g1 23 (by omega)]
          have : (⟨23, by omega⟩ : Fin M) = topRow := rfl
          rw [this, htop1]
        rw [ihseg, htop1, hsplit, hseg s.grid, e2, rowN_of_lt s.grid i hlt]
        exact settled_after_clear (s.grid ⟨i, hlt⟩) (s.grid topRow) _ hrow htop
      · rw [if_neg hfull] at h
        have hrow : ¬ rowFull s.grid ⟨i, hlt⟩ := fun hr => hfull ((countRow_eq_iff _ _).mpr hr)
        obtain ⟨ihrows, ihseg⟩ := check_lines_loop_rows fuel (i + 1) s s1 (by omega) htop h
        refine ⟨fun r hr => ihrows r (by omega), ?_⟩
        rw [hseg s1.grid, hseg s.grid, ihseg, rowN_of_lt s1.grid i hlt, rowN_of_lt s.grid i hlt,
          ihrows ⟨i, hlt⟩ (by simp)]
        exact (settled_keep (s.grid ⟨i, hlt⟩) (s.grid topRow) _ hrow).symm
    · rw [dif_neg hlt] at h
      cases h
      have e : M - i = 0 := by omega
      rw [e]
      exact ⟨fun _ _ => rfl, rfl⟩

theorem fullCount_rows (g : Grid) : fullCount (rows g) = fullRows g := by
  rw [rows_eq_rowsSeg, fullCount_rowsSeg g M 0 (by omega)]
  unfold fullRows
  rw [List.range_eq_range']

theorem compacted_length : ∀ (l : List Row) (k : Nat),
    (compacted l k).length + fullCount l = l.length
  | [], _ => rfl
  | row :: rest, k => by
    have e : compacted (row :: rest) k =
        if fullRow row then compacted rest (k + 1)
        else rowLoweredBy k row :: compacted rest k := rfl
    rw [e]
    by_cases hr : fullRow row
    · have c : fullCount (row :: rest) = fullCount rest + 1 := by
        simp [fullCount, List.countP_cons, hr]
      rw [if_pos hr, c, List.length_cons, ← compacted_length rest (k + 1)]
      omega
    · have c : fullCount (row :: rest) = fullCount rest := by
        simp [fullCount, List.countP_cons, hr]
      rw [if_neg hr, c, List.length_cons, List.length_cons, ← compacted_length rest k]
      omega

/-- C16: for every grid whose top row (index 23) is not full, `check_lines` terminates and
removes exactly the full rows: the resulting rows, read from index 0 upward, are the
rows of the input that are not full, in their original order, each with occupancy, colour,
`x` and size kept and pixel `y` grown by 32 per full row below it, followed by one copy of
the input's top row for each removed row (the copy at `j` rows below the top has its pixel
`y` grown by `32 * j`); the rows kept and the rows removed add up to 24, so a row that is
not full is never removed. -/
theorem check_lines_compacts (s : State) (htop : ¬ rowFull s.grid topRow) :
    ∃ s1, (∀ fuel, 48 ≤ fuel → check_lines fuel s = .ok s1) ∧
      rows s1.grid =
        compacted (rows s.grid) 0 ++ topCopies (s.grid topRow) (fullRows s.grid) ∧
      (compacted (rows s.grid) 0).length + fullRows s.grid = M := by
  obtain ⟨s1, hs1, _⟩ :=
    check_lines_returns s (by rw [fullAt_top]; exact decide_eq_false htop)
  obtain ⟨_, hseg⟩ :=
    check_lines_loop_rows 48 0 s s1 (by omega) htop (hs1 48 (Nat.le_refl 48))
  refine ⟨s1, hs1, ?_, ?_⟩
  · rw [rows_eq_rowsSeg, rows_eq_rowsSeg, ← fullCount_rows, rows_eq_rowsSeg]
    exact hseg
  · rw [← fullCount_rows, compacted_length]
    simp [rows, length_indices]

/-- Witness of C16: two full rows below a top row that is not full. -/
theorem check_lines_compacts_witness :
    (¬ rowFull twoRowsNearCap.grid topRow) ∧
    ∃ s1, (∀ fuel, 48 ≤ fuel → check_lines fuel twoRowsNearCap = .ok s1) ∧
      rows s1.grid =
        compacted (rows twoRowsNearCap.grid) 0 ++
          topCopies (twoRowsNearCap.grid topRow) (fullRows twoRowsNearCap.grid) ∧
      (compacted (rows twoRowsNearCap.grid) 0).length + fullRows twoRowsNearCap.grid = M :=
  ⟨by decide, check_lines_compacts twoRowsNearCap (by decide)⟩

end Tetris
